import Mathlib

/-!
Verification of the encrypt/decrypt core of the `encrypt-data-in-nodejs`
repository (`encryption.js`, `config.js`, `routes.js`).

The repository derives a fixed AES-256-CBC key and IV from two configured
secrets (SHA-512 hex digest, truncated to 32 and 16 characters, used as ASCII
bytes), encrypts UTF-8 plaintext with `crypto.createCipheriv`, renders the raw
ciphertext as lowercase hex, Base64-encodes the hex text, and decrypts by
reversing that pipeline.

Everything here is a shallow embedding: bytes are `Nat` values below 256,
byte strings are `List Nat`, JS strings are Lean `String`/`List Char`, a JS
`undefined` argument is `Option.none`, and a thrown exception is an
`Except.error`.  The behaviour of the Node library functions the source calls
(`crypto.createHash('sha512')`, `crypto.createCipheriv('aes-256-cbc', …)`,
`Buffer.from(…, 'base64' / 'hex' / 'utf8')`) is embedded from their documented
semantics: SHA-512 and AES-256-CBC with PKCS#7 padding are implemented in
full, `Buffer` Base64/hex decoding is best-effort (invalid input is ignored or
truncated, never an error), string output conversion decodes UTF-8 with
U+FFFD replacement.
-/

set_option maxRecDepth 262144
set_option maxHeartbeats 12000000

namespace EncDataNode

/-! ## Byte-list helpers -/

/-- Index into a list of naturals, defaulting to 0 out of range. -/
def nthN (l : List Nat) (i : Nat) : Nat := l.getD i 0

/-- All entries of the list are bytes. -/
def Bytes (l : List Nat) : Prop := ∀ x ∈ l, x < 256

/-- Bytewise xor of two equal-length byte lists. -/
def xorBytes (v w : List Nat) : List Nat := List.zipWith (fun x y => x ^^^ y) v w

/-! ## GF(2^8) arithmetic used by AES MixColumns -/

/-- Multiplication by the polynomial x in GF(2^8) modulo x^8+x^4+x^3+x+1. -/
def xtime (x : Nat) : Nat :=
  if x < 128 then 2 * x else (2 * x - 256) ^^^ 27

/-- Multiplication by 02 in GF(2^8). -/
def mul2 (x : Nat) : Nat := xtime x

/-- Multiplication by 03 in GF(2^8). -/
def mul3 (x : Nat) : Nat := xtime x ^^^ x

/-- Multiplication by 09 in GF(2^8). -/
def mul9 (x : Nat) : Nat := xtime (xtime (xtime x)) ^^^ x

/-- Multiplication by 0b in GF(2^8). -/
def mul11 (x : Nat) : Nat := xtime (xtime (xtime x)) ^^^ xtime x ^^^ x

/-- Multiplication by 0d in GF(2^8). -/
def mul13 (x : Nat) : Nat := xtime (xtime (xtime x)) ^^^ xtime (xtime x) ^^^ x

/-- Multiplication by 0e in GF(2^8). -/
def mul14 (x : Nat) : Nat := xtime (xtime (xtime x)) ^^^ xtime (xtime x) ^^^ xtime x

/-! ## The AES S-box and its inverse (FIPS-197 tables) -/

def sboxTab : List Nat := [
  0x63, 0x7c, 0x77, 0x7b, 0xf2, 0x6b, 0x6f, 0xc5, 0x30, 0x01, 0x67, 0x2b, 0xfe, 0xd7, 0xab, 0x76,
  0xca, 0x82, 0xc9, 0x7d, 0xfa, 0x59, 0x47, 0xf0, 0xad, 0xd4, 0xa2, 0xaf, 0x9c, 0xa4, 0x72, 0xc0,
  0xb7, 0xfd, 0x93, 0x26, 0x36, 0x3f, 0xf7, 0xcc, 0x34, 0xa5, 0xe5, 0xf1, 0x71, 0xd8, 0x31, 0x15,
  0x04, 0xc7, 0x23, 0xc3, 0x18, 0x96, 0x05, 0x9a, 0x07, 0x12, 0x80, 0xe2, 0xeb, 0x27, 0xb2, 0x75,
  0x09, 0x83, 0x2c, 0x1a, 0x1b, 0x6e, 0x5a, 0xa0, 0x52, 0x3b, 0xd6, 0xb3, 0x29, 0xe3, 0x2f, 0x84,
  0x53, 0xd1, 0x00, 0xed, 0x20, 0xfc, 0xb1, 0x5b, 0x6a, 0xcb, 0xbe, 0x39, 0x4a, 0x4c, 0x58, 0xcf,
  0xd0, 0xef, 0xaa, 0xfb, 0x43, 0x4d, 0x33, 0x85, 0x45, 0xf9, 0x02, 0x7f, 0x50, 0x3c, 0x9f, 0xa8,
  0x51, 0xa3, 0x40, 0x8f, 0x92, 0x9d, 0x38, 0xf5, 0xbc, 0xb6, 0xda, 0x21, 0x10, 0xff, 0xf3, 0xd2,
  0xcd, 0x0c, 0x13, 0xec, 0x5f, 0x97, 0x44, 0x17, 0xc4, 0xa7, 0x7e, 0x3d, 0x64, 0x5d, 0x19, 0x73,
  0x60, 0x81, 0x4f, 0xdc, 0x22, 0x2a, 0x90, 0x88, 0x46, 0xee, 0xb8, 0x14, 0xde, 0x5e, 0x0b, 0xdb,
  0xe0, 0x32, 0x3a, 0x0a, 0x49, 0x06, 0x24, 0x5c, 0xc2, 0xd3, 0xac, 0x62, 0x91, 0x95, 0xe4, 0x79,
  0xe7, 0xc8, 0x37, 0x6d, 0x8d, 0xd5, 0x4e, 0xa9, 0x6c, 0x56, 0xf4, 0xea, 0x65, 0x7a, 0xae, 0x08,
  0xba, 0x78, 0x25, 0x2e, 0x1c, 0xa6, 0xb4, 0xc6, 0xe8, 0xdd, 0x74, 0x1f, 0x4b, 0xbd, 0x8b, 0x8a,
  0x70, 0x3e, 0xb5, 0x66, 0x48, 0x03, 0xf6, 0x0e, 0x61, 0x35, 0x57, 0xb9, 0x86, 0xc1, 0x1d, 0x9e,
  0xe1, 0xf8, 0x98, 0x11, 0x69, 0xd9, 0x8e, 0x94, 0x9b, 0x1e, 0x87, 0xe9, 0xce, 0x55, 0x28, 0xdf,
  0x8c, 0xa1, 0x89, 0x0d, 0xbf, 0xe6, 0x42, 0x68, 0x41, 0x99, 0x2d, 0x0f, 0xb0, 0x54, 0xbb, 0x16
]

def invSboxTab : List Nat := [
  0x52, 0x09, 0x6a, 0xd5, 0x30, 0x36, 0xa5, 0x38, 0xbf, 0x40, 0xa3, 0x9e, 0x81, 0xf3, 0xd7, 0xfb,
  0x7c, 0xe3, 0x39, 0x82, 0x9b, 0x2f, 0xff, 0x87, 0x34, 0x8e, 0x43, 0x44, 0xc4, 0xde, 0xe9, 0xcb,
  0x54, 0x7b, 0x94, 0x32, 0xa6, 0xc2, 0x23, 0x3d, 0xee, 0x4c, 0x95, 0x0b, 0x42, 0xfa, 0xc3, 0x4e,
  0x08, 0x2e, 0xa1, 0x66, 0x28, 0xd9, 0x24, 0xb2, 0x76, 0x5b, 0xa2, 0x49, 0x6d, 0x8b, 0xd1, 0x25,
  0x72, 0xf8, 0xf6, 0x64, 0x86, 0x68, 0x98, 0x16, 0xd4, 0xa4, 0x5c, 0xcc, 0x5d, 0x65, 0xb6, 0x92,
  0x6c, 0x70, 0x48, 0x50, 0xfd, 0xed, 0xb9, 0xda, 0x5e, 0x15, 0x46, 0x57, 0xa7, 0x8d, 0x9d, 0x84,
  0x90, 0xd8, 0xab, 0x00, 0x8c, 0xbc, 0xd3, 0x0a, 0xf7, 0xe4, 0x58, 0x05, 0xb8, 0xb3, 0x45, 0x06,
  0xd0, 0x2c, 0x1e, 0x8f, 0xca, 0x3f, 0x0f, 0x02, 0xc1, 0xaf, 0xbd, 0x03, 0x01, 0x13, 0x8a, 0x6b,
  0x3a, 0x91, 0x11, 0x41, 0x4f, 0x67, 0xdc, 0xea, 0x97, 0xf2, 0xcf, 0xce, 0xf0, 0xb4, 0xe6, 0x73,
  0x96, 0xac, 0x74, 0x22, 0xe7, 0xad, 0x35, 0x85, 0xe2, 0xf9, 0x37, 0xe8, 0x1c, 0x75, 0xdf, 0x6e,
  0x47, 0xf1, 0x1a, 0x71, 0x1d, 0x29, 0xc5, 0x89, 0x6f, 0xb7, 0x62, 0x0e, 0xaa, 0x18, 0xbe, 0x1b,
  0xfc, 0x56, 0x3e, 0x4b, 0xc6, 0xd2, 0x79, 0x20, 0x9a, 0xdb, 0xc0, 0xfe, 0x78, 0xcd, 0x5a, 0xf4,
  0x1f, 0xdd, 0xa8, 0x33, 0x88, 0x07, 0xc7, 0x31, 0xb1, 0x12, 0x10, 0x59, 0x27, 0x80, 0xec, 0x5f,
  0x60, 0x51, 0x7f, 0xa9, 0x19, 0xb5, 0x4a, 0x0d, 0x2d, 0xe5, 0x7a, 0x9f, 0x93, 0xc9, 0x9c, 0xef,
  0xa0, 0xe0, 0x3b, 0x4d, 0xae, 0x2a, 0xf5, 0xb0, 0xc8, 0xeb, 0xbb, 0x3c, 0x83, 0x53, 0x99, 0x61,
  0x17, 0x2b, 0x04, 0x7e, 0xba, 0x77, 0xd6, 0x26, 0xe1, 0x69, 0x14, 0x63, 0x55, 0x21, 0x0c, 0x7d
]

/-- The AES S-box as a function on bytes. -/
def sbox (x : Nat) : Nat := nthN sboxTab x

/-- The inverse AES S-box as a function on bytes. -/
def invSbox (x : Nat) : Nat := nthN invSboxTab x

/-! ## The four AES round transformations and their inverses.

A cipher state is the flat 16-byte list `in0 … in15` of FIPS-197, i.e.
state column `c` is the slice `in[4c … 4c+3]`. -/

def subBytes (s : List Nat) : List Nat := s.map sbox

def invSubBytes (s : List Nat) : List Nat := s.map invSbox

def addRoundKey (k s : List Nat) : List Nat := xorBytes s k

def shiftRows : List Nat → List Nat
  | [a0, a1, a2, a3, a4, a5, a6, a7, a8, a9, a10, a11, a12, a13, a14, a15] =>
      [a0, a5, a10, a15, a4, a9, a14, a3, a8, a13, a2, a7, a12, a1, a6, a11]
  | l => l

def invShiftRows : List Nat → List Nat
  | [a0, a1, a2, a3, a4, a5, a6, a7, a8, a9, a10, a11, a12, a13, a14, a15] =>
      [a0, a13, a10, a7, a4, a1, a14, a11, a8, a5, a2, a15, a12, a9, a6, a3]
  | l => l

def mixColumns : List Nat → List Nat
  | a :: b :: c :: d :: rest =>
      (mul2 a ^^^ mul3 b ^^^ c ^^^ d) ::
      (a ^^^ mul2 b ^^^ mul3 c ^^^ d) ::
      (a ^^^ b ^^^ mul2 c ^^^ mul3 d) ::
      (mul3 a ^^^ b ^^^ c ^^^ mul2 d) :: mixColumns rest
  | l => l

def invMixColumns : List Nat → List Nat
  | a :: b :: c :: d :: rest =>
      (mul14 a ^^^ mul11 b ^^^ mul13 c ^^^ mul9 d) ::
      (mul9 a ^^^ mul14 b ^^^ mul11 c ^^^ mul13 d) ::
      (mul13 a ^^^ mul9 b ^^^ mul14 c ^^^ mul11 d) ::
      (mul11 a ^^^ mul13 b ^^^ mul9 c ^^^ mul14 d) :: invMixColumns rest
  | l => l

/-! ## AES-256 key expansion (FIPS-197 section 5.2) -/

def rotWord : List Nat → List Nat
  | a :: rest => rest ++ [a]
  | [] => []

def subWord (w : List Nat) : List Nat := w.map sbox

/-- Round constants for AES-256 key expansion (indices 1 … 7). -/
def rcon : Nat → Nat
  | 1 => 0x01
  | 2 => 0x02
  | 3 => 0x04
  | 4 => 0x08
  | 5 => 0x10
  | 6 => 0x20
  | 7 => 0x40
  | _ => 0

def nthWord (ws : List (List Nat)) (i : Nat) : List Nat := ws.getD i [0, 0, 0, 0]

/-- The next expansion word `w[i]` where `i = ws.length`. -/
def nextWord (ws : List (List Nat)) : List Nat :=
  let i := ws.length
  let prev := nthWord ws (i - 1)
  let t :=
    if i % 8 = 0 then xorBytes (subWord (rotWord prev)) [rcon (i / 8), 0, 0, 0]
    else if i % 8 = 4 then subWord prev
    else prev
  xorBytes (nthWord ws (i - 8)) t

def expandFrom : Nat → List (List Nat) → List (List Nat)
  | 0, ws => ws
  | n + 1, ws => expandFrom n (ws ++ [nextWord ws])

/-- Split a byte list into 4-byte words. -/
def toWords : List Nat → List (List Nat)
  | a :: b :: c :: d :: rest => [a, b, c, d] :: toWords rest
  | _ => []

/-- The 60 expansion words of a 32-byte AES-256 key. -/
def keyWords (key : List Nat) : List (List Nat) := expandFrom 52 (toWords key)

/-- Group expansion words four at a time into flat 16-byte round keys. -/
def groupRK : List (List Nat) → List (List Nat)
  | w0 :: w1 :: w2 :: w3 :: rest => (w0 ++ w1 ++ w2 ++ w3) :: groupRK rest
  | _ => []

/-- The 15 round keys of AES-256. -/
def roundKeys (key : List Nat) : List (List Nat) := groupRK (keyWords key)

/-! ## The AES-256 block cipher -/

/-- Rounds after the initial AddRoundKey: 13 full rounds, then the final round
without MixColumns. -/
def encRounds : List (List Nat) → List Nat → List Nat
  | [], s => s
  | [k], s => addRoundKey k (shiftRows (subBytes s))
  | k :: k2 :: rest, s =>
      encRounds (k2 :: rest) (addRoundKey k (mixColumns (shiftRows (subBytes s))))

/-- AES block encryption given the list of round keys. -/
def encryptBlock (rks : List (List Nat)) (s : List Nat) : List Nat :=
  match rks with
  | [] => s
  | k0 :: rest => encRounds rest (addRoundKey k0 s)

/-- Inverse of `encRounds`: undoes the rounds in reverse order. -/
def decRounds : List (List Nat) → List Nat → List Nat
  | [], s => s
  | [k], s => invSubBytes (invShiftRows (addRoundKey k s))
  | k :: k2 :: rest, s =>
      invSubBytes (invShiftRows (invMixColumns (addRoundKey k (decRounds (k2 :: rest) s))))

/-- AES block decryption given the same round-key list as `encryptBlock`. -/
def decryptBlock (rks : List (List Nat)) (s : List Nat) : List Nat :=
  match rks with
  | [] => s
  | k0 :: rest => addRoundKey k0 (decRounds rest s)

/-! ## CBC mode with PKCS#7 padding (what `aes-256-cbc` names in OpenSSL) -/

/-- Split a byte list into 16-byte blocks, discarding a trailing partial block. -/
def chunk16 : List Nat → List (List Nat)
  | b0 :: b1 :: b2 :: b3 :: b4 :: b5 :: b6 :: b7 ::
    b8 :: b9 :: b10 :: b11 :: b12 :: b13 :: b14 :: b15 :: rest =>
      [b0, b1, b2, b3, b4, b5, b6, b7, b8, b9, b10, b11, b12, b13, b14, b15] :: chunk16 rest
  | _ => []

def cbcEncBlocks (rks : List (List Nat)) : List Nat → List (List Nat) → List (List Nat)
  | _, [] => []
  | prev, b :: bs =>
      let c := encryptBlock rks (xorBytes b prev)
      c :: cbcEncBlocks rks c bs

def cbcDecBlocks (rks : List (List Nat)) : List Nat → List (List Nat) → List (List Nat)
  | _, [] => []
  | prev, c :: cs => xorBytes (decryptBlock rks c) prev :: cbcDecBlocks rks c cs

/-- PKCS#7: pad with `p` copies of `p` where `p = 16 - len mod 16` (always 1 … 16). -/
def pkcs7Pad (m : List Nat) : List Nat :=
  let p := 16 - m.length % 16
  m ++ List.replicate p p

/-- PKCS#7 unpadding as OpenSSL checks it: the last byte `v` must be 1 … 16 and
the last `v` bytes must all equal `v`. -/
def pkcs7Unpad (m : List Nat) : Option (List Nat) :=
  match m.getLast? with
  | none => none
  | some v =>
      if 1 ≤ v ∧ v ≤ 16 ∧ v ≤ m.length ∧ (m.drop (m.length - v)).all (fun x => x == v) = true
      then some (m.take (m.length - v))
      else none

/-- AES-256-CBC encryption of a byte string: pad, chain blocks from the IV. -/
def aesCbcEncrypt (key iv pt : List Nat) : List Nat :=
  (cbcEncBlocks (roundKeys key) iv (chunk16 (pkcs7Pad pt))).flatten

/-- AES-256-CBC decryption: fails (as `decipher.final` throws) when the
ciphertext is empty or not block-aligned, or when the padding is invalid. -/
def aesCbcDecrypt (key iv ct : List Nat) : Option (List Nat) :=
  if ct.length = 0 ∨ ¬ ct.length % 16 = 0 then none
  else pkcs7Unpad ((cbcDecBlocks (roundKeys key) iv (chunk16 ct)).flatten)

/-! ## Lowercase hex encoding, and `Buffer`-style best-effort hex decoding -/

def hexDigits : List Char := "0123456789abcdef".data

def hexDigit (n : Nat) : Char := hexDigits.getD n '0'

def hexEncode : List Nat → List Char
  | [] => []
  | b :: bs => hexDigit (b / 16) :: hexDigit (b % 16) :: hexEncode bs

def hexVal (c : Char) : Option Nat :=
  let n := c.toNat
  if 48 ≤ n ∧ n ≤ 57 then some (n - 48)
  else if 97 ≤ n ∧ n ≤ 102 then some (n - 87)
  else if 65 ≤ n ∧ n ≤ 70 then some (n - 55)
  else none

/-- Node `Buffer` hex decoding truncates at the first invalid pair. -/
def hexDecodeL : List Char → List Nat
  | c1 :: c2 :: rest =>
      match hexVal c1, hexVal c2 with
      | some h, some l => (16 * h + l) :: hexDecodeL rest
      | _, _ => []
  | _ => []

/-! ## Base64 encoding, and `Buffer`-style best-effort decoding -/

def b64Chars : List Char :=
  ['A', 'B', 'C', 'D', 'E', 'F', 'G', 'H', 'I', 'J', 'K', 'L', 'M',
   'N', 'O', 'P', 'Q', 'R', 'S', 'T', 'U', 'V', 'W', 'X', 'Y', 'Z',
   'a', 'b', 'c', 'd', 'e', 'f', 'g', 'h', 'i', 'j', 'k', 'l', 'm',
   'n', 'o', 'p', 'q', 'r', 's', 't', 'u', 'v', 'w', 'x', 'y', 'z',
   '0', '1', '2', '3', '4', '5', '6', '7', '8', '9', '+', '/']

def b64Digit (n : Nat) : Char := b64Chars.getD n 'A'

/-- Standard padded Base64 as `Buffer.toString('base64')` produces it. -/
def b64Encode : List Nat → List Char
  | a :: b :: c :: rest =>
      b64Digit (a / 4) :: b64Digit (a % 4 * 16 + b / 16) ::
      b64Digit (b % 16 * 4 + c / 64) :: b64Digit (c % 64) :: b64Encode rest
  | [a, b] => [b64Digit (a / 4), b64Digit (a % 4 * 16 + b / 16), b64Digit (b % 16 * 4), '=']
  | [a] => [b64Digit (a / 4), b64Digit (a % 4 * 16), '=', '=']
  | [] => []

/-- Value of a Base64 character; Node also accepts the URL-safe alphabet. -/
def b64Val (c : Char) : Option Nat :=
  let n := c.toNat
  if 65 ≤ n ∧ n ≤ 90 then some (n - 65)
  else if 97 ≤ n ∧ n ≤ 122 then some (n - 71)
  else if 48 ≤ n ∧ n ≤ 57 then some (n + 4)
  else if c = '+' ∨ c = '-' then some 62
  else if c = '/' ∨ c = '_' then some 63
  else none

def isB64Char (c : Char) : Bool := (b64Val c).isSome

def b64ValD (c : Char) : Nat := (b64Val c).getD 0

/-- Decode a run of Base64 alphabet characters, four at a time. -/
def b64DecodeQuads : List Char → List Nat
  | c1 :: c2 :: c3 :: c4 :: rest =>
      (b64ValD c1 * 4 + b64ValD c2 / 16) ::
      (b64ValD c2 % 16 * 16 + b64ValD c3 / 4) ::
      (b64ValD c3 % 4 * 64 + b64ValD c4) :: b64DecodeQuads rest
  | [c1, c2, c3] =>
      [b64ValD c1 * 4 + b64ValD c2 / 16, b64ValD c2 % 16 * 16 + b64ValD c3 / 4]
  | [c1, c2] => [b64ValD c1 * 4 + b64ValD c2 / 16]
  | _ => []

/-- Node `Buffer.from(s, 'base64')` is best-effort, never an error: it stops
at the first `=` and skips characters outside the alphabet before that. -/
def b64DecodeL (s : List Char) : List Nat :=
  b64DecodeQuads ((s.takeWhile (fun c => !(c == '='))).filter isB64Char)

/-- Length of a character list in UTF-16 code units, as a JS string `.length`
counts it: characters beyond the BMP take two code units. -/
def utf16Length (cs : List Char) : Nat :=
  (cs.map (fun c => if c.toNat < 0x10000 then 1 else 2)).sum

/-! ## UTF-8 encoding of a Lean string (`Buffer.from(s, 'utf8')`) -/

def utf8EncodeChar (c : Char) : List Nat :=
  let n := c.toNat
  if n < 0x80 then [n]
  else if n < 0x800 then [0xc0 + n / 64, 0x80 + n % 64]
  else if n < 0x10000 then [0xe0 + n / 4096, 0x80 + n / 64 % 64, 0x80 + n % 64]
  else [0xf0 + n / 262144, 0x80 + n / 4096 % 64, 0x80 + n / 64 % 64, 0x80 + n % 64]

def utf8Encode (cs : List Char) : List Nat := cs.flatMap utf8EncodeChar

/-! ## UTF-8 decoding with U+FFFD replacement (`buffer.toString('utf8')`),
the WHATWG decoder used by Node: lone or out-of-range bytes become U+FFFD,
an out-of-range continuation byte is reconsumed as a fresh lead byte. -/

def repl : Char := Char.ofNat 0xfffd

/-- Classification of a lead byte: emit an ASCII character directly, reject,
or start a multi-byte sequence with an accumulator, a count of remaining
continuation bytes, and WHATWG bounds for the next byte. -/
inductive Utf8Step where
  | emit (c : Char)
  | bad
  | start (acc need lo hi : Nat)

def utf8Classify (b : Nat) : Utf8Step :=
  if b < 0x80 then .emit (Char.ofNat b)
  else if b < 0xc2 then .bad
  else if b < 0xe0 then .start (b - 0xc0) 1 0x80 0xbf
  else if b = 0xe0 then .start 0 2 0xa0 0xbf
  else if b = 0xed then .start 13 2 0x80 0x9f
  else if b < 0xf0 then .start (b - 0xe0) 2 0x80 0xbf
  else if b = 0xf0 then .start 0 3 0x90 0xbf
  else if b < 0xf4 then .start (b - 0xf0) 3 0x80 0xbf
  else if b = 0xf4 then .start 4 3 0x80 0x8f
  else .bad

def utf8Go : Option (Nat × Nat × Nat × Nat) → List Nat → List Char
  | none, [] => []
  | some _, [] => [repl]
  | none, b :: bs =>
      match utf8Classify b with
      | .emit c => c :: utf8Go none bs
      | .bad => repl :: utf8Go none bs
      | .start acc need lo hi => utf8Go (some (acc, need, lo, hi)) bs
  | some (acc, need, lo, hi), b :: bs =>
      if lo ≤ b ∧ b ≤ hi then
        if need = 1 then Char.ofNat (acc * 64 + (b - 0x80)) :: utf8Go none bs
        else utf8Go (some (acc * 64 + (b - 0x80), need - 1, 0x80, 0xbf)) bs
      else
        repl ::
          match utf8Classify b with
          | .emit c => c :: utf8Go none bs
          | .bad => repl :: utf8Go none bs
          | .start a2 n2 l2 h2 => utf8Go (some (a2, n2, l2, h2)) bs

def utf8DecodeR (l : List Nat) : List Char := utf8Go none l

/-! ## SHA-512 (FIPS 180-4); 64-bit words are naturals below `M64` -/

def M64 : Nat := 2 ^ 64

def rotr64 (x n : Nat) : Nat := (x / 2 ^ n + x % 2 ^ n * 2 ^ (64 - n)) % M64

def shr64 (x n : Nat) : Nat := x / 2 ^ n

def ssig0 (x : Nat) : Nat := rotr64 x 1 ^^^ rotr64 x 8 ^^^ shr64 x 7

def ssig1 (x : Nat) : Nat := rotr64 x 19 ^^^ rotr64 x 61 ^^^ shr64 x 6

def bsig0 (x : Nat) : Nat := rotr64 x 28 ^^^ rotr64 x 34 ^^^ rotr64 x 39

def bsig1 (x : Nat) : Nat := rotr64 x 14 ^^^ rotr64 x 18 ^^^ rotr64 x 41

/-- The first 80 primes, whose roots seed the SHA-512 constants. -/
def primes80 : List Nat :=
  [2, 3, 5, 7, 11, 13, 17, 19, 23, 29, 31, 37, 41, 43, 47, 53, 59, 61, 67, 71,
   73, 79, 83, 89, 97, 101, 103, 107, 109, 113, 127, 131, 137, 139, 149, 151,
   157, 163, 167, 173, 179, 181, 191, 193, 197, 199, 211, 223, 227, 229, 233,
   239, 241, 251, 257, 263, 269, 271, 277, 281, 283, 293, 307, 311, 313, 317,
   331, 337, 347, 349, 353, 359, 367, 373, 379, 383, 389, 397, 401, 409]

/-- Largest `r` with `r^3 ≤ n`, scanning bits from `i-1` down. -/
def icbrtGo : Nat → Nat → Nat → Nat
  | 0, _, r => r
  | i + 1, n, r => icbrtGo i n (if (r + 2 ^ i) ^ 3 ≤ n then r + 2 ^ i else r)

def icbrt (n : Nat) : Nat := icbrtGo 68 n 0

/-- Largest `r` with `r^2 ≤ n`, scanning bits from `i-1` down. -/
def isqrtGo : Nat → Nat → Nat → Nat
  | 0, _, r => r
  | i + 1, n, r => isqrtGo i n (if (r + 2 ^ i) ^ 2 ≤ n then r + 2 ^ i else r)

def isqrt (n : Nat) : Nat := isqrtGo 70 n 0

/-- First 64 bits of the fractional part of the cube root of `p`. -/
def fracCbrt64 (p : Nat) : Nat := icbrt (p * 2 ^ 192) % M64

/-- First 64 bits of the fractional part of the square root of `p`. -/
def fracSqrt64 (p : Nat) : Nat := isqrt (p * 2 ^ 128) % M64

def sha512K : List Nat := primes80.map fracCbrt64

def sha512H0 : List Nat := (primes80.take 8).map fracSqrt64

/-- Big-endian byte rendering of `n` in `w` bytes. -/
def beBytes : Nat → Nat → List Nat
  | 0, _ => []
  | w + 1, n => beBytes w (n / 256) ++ [n % 256]

/-- SHA-512 message padding: 0x80, zeros, then the 128-bit bit length. -/
def sha512PadMsg (m : List Nat) : List Nat :=
  let len := m.length
  m ++ 0x80 :: (List.replicate ((240 - (len + 1) % 128) % 128) 0 ++ beBytes 16 (8 * len))

/-- Big-endian 64-bit words from bytes, eight at a time. -/
def beWords64 : List Nat → List Nat
  | b0 :: b1 :: b2 :: b3 :: b4 :: b5 :: b6 :: b7 :: rest =>
      (((((((b0 * 256 + b1) * 256 + b2) * 256 + b3) * 256 + b4) * 256 + b5) * 256 + b6)
          * 256 + b7) :: beWords64 rest
  | _ => []

/-- Split a word list into 16-word blocks. -/
def chunk16W : List Nat → List (List Nat)
  | w0 :: w1 :: w2 :: w3 :: w4 :: w5 :: w6 :: w7 ::
    w8 :: w9 :: w10 :: w11 :: w12 :: w13 :: w14 :: w15 :: rest =>
      [w0, w1, w2, w3, w4, w5, w6, w7, w8, w9, w10, w11, w12, w13, w14, w15] :: chunk16W rest
  | _ => []

/-- Extend a 16-word block to the 80-word message schedule. -/
def schedFrom : Nat → List Nat → List Nat
  | 0, ws => ws
  | n + 1, ws =>
      schedFrom n (ws ++
        [(ssig1 (nthN ws (ws.length - 2)) + nthN ws (ws.length - 7) +
            ssig0 (nthN ws (ws.length - 15)) + nthN ws (ws.length - 16)) % M64])

def not64 (x : Nat) : Nat := 0xffffffffffffffff ^^^ x

/-- The SHA choice function on 64-bit words. -/
def ch64 (x y z : Nat) : Nat := (x &&& y) ^^^ (not64 x &&& z)

/-- The SHA majority function on 64-bit words. -/
def maj64 (x y z : Nat) : Nat := (x &&& y) ^^^ (x &&& z) ^^^ (y &&& z)

/-- One SHA-512 compression round on the state `[a, b, c, d, e, f, g, h]`. -/
def shaRound : List Nat → Nat → Nat → List Nat
  | [a, b, c, d, e, f, g, h], k, w =>
      let t1 := (h + bsig1 e + ch64 e f g + k + w) % M64
      let t2 := (bsig0 a + maj64 a b c) % M64
      [(t1 + t2) % M64, a, b, c, (d + t1) % M64, e, f, g]
  | s, _, _ => s

def shaRounds : List Nat → List Nat → List Nat → List Nat
  | k :: ks, w :: ws, s => shaRounds ks ws (shaRound s k w)
  | _, _, s => s

def shaCompress (h : List Nat) (block : List Nat) : List Nat :=
  let v := shaRounds sha512K (schedFrom 64 block) h
  List.zipWith (fun x y => (x + y) % M64) h v

def shaBlocks : List Nat → List (List Nat) → List Nat
  | h, [] => h
  | h, b :: bs => shaBlocks (shaCompress h b) bs

/-- SHA-512 digest (64 bytes) of a byte string. -/
def sha512Bytes (m : List Nat) : List Nat :=
  (shaBlocks sha512H0 (chunk16W (beWords64 (sha512PadMsg m)))).flatMap (beBytes 8)

/-- `crypto.createHash('sha512').update(s).digest('hex')`: the digest of the
UTF-8 bytes of `s`, rendered as 128 lowercase hex characters. -/
def sha512Hex (s : String) : List Char := hexEncode (sha512Bytes (utf8Encode s.data))

/-! ## The encryption module (`encryption.js`) -/

/-- `.digest('hex').substring(0, 32)`: the key string derived from the secret. -/
def keyChars (sk : String) : List Char := (sha512Hex sk).take 32

/-- `.digest('hex').substring(0, 16)`: the IV string derived from the secret. -/
def ivChars (siv : String) : List Char := (sha512Hex siv).take 16

/-- The derived key as `String`, mirroring the module-level `key` constant. -/
def keyStr (sk : String) : String := String.mk (keyChars sk)

/-- The derived IV as `String`, mirroring the module-level `encryptionIV`. -/
def encryptionIVStr (siv : String) : String := String.mk (ivChars siv)

/-- A thrown JS exception, by cause. -/
inductive JsError where
  /-- `TypeError`: an argument was `undefined` where a string was required. -/
  | typeError
  /-- `ERR_INVALID_ARG_VALUE`: odd-length string passed as hex input. -/
  | invalidArg
  /-- OpenSSL `wrong final block length` or `bad decrypt` from `final()`. -/
  | badDecrypt
deriving DecidableEq, Repr

/-- `encryptData` over the already-derived key and IV characters.  A present
string is UTF-8 encoded, AES-256-CBC encrypted (`cipher.update` + `final` with
output encoding hex), and the hex text is Base64 encoded via `Buffer.from`;
a missing (`undefined`) argument makes `cipher.update` throw a `TypeError`. -/
def encryptCore (key iv : List Char) (data : Option String) : Except JsError String :=
  match data with
  | none => .error .typeError
  | some s =>
      .ok (String.mk (b64Encode (utf8Encode (hexEncode
        (aesCbcEncrypt (utf8Encode key) (utf8Encode iv) (utf8Encode s.data))))))

/-- `decryptData` over the already-derived key and IV characters.
`Buffer.from(e, 'base64')` decodes best-effort; `buff.toString('utf8')` reads
the bytes back with U+FFFD replacement; `decipher.update(_, 'hex', 'utf8')`
rejects hex input whose length in UTF-16 code units is odd, truncates at the
first invalid hex pair, and decrypts; `final` fails on misaligned ciphertext
or bad padding; the plaintext bytes are decoded as UTF-8 text with
replacement. -/
def decryptCore (key iv : List Char) (encryptedData : Option String) :
    Except JsError String :=
  match encryptedData with
  | none => .error .typeError
  | some e =>
      let hexText := utf8DecodeR (b64DecodeL e.data)
      if utf16Length hexText % 2 = 0 then
        match aesCbcDecrypt (utf8Encode key) (utf8Encode iv) (hexDecodeL hexText) with
        | none => .error .badDecrypt
        | some pt => .ok (String.mk (utf8DecodeR pt))
      else .error .invalidArg

/-- `encryptData` of `encryption.js` under secrets `sk`, `siv`. -/
def encryptData (sk siv : String) (data : Option String) : Except JsError String :=
  encryptCore (keyChars sk) (ivChars siv) data

/-- `decryptData` of `encryption.js` under secrets `sk`, `siv`. -/
def decryptData (sk siv : String) (encryptedData : Option String) : Except JsError String :=
  decryptCore (keyChars sk) (ivChars siv) encryptedData

/-! ## Configuration (`config.js`) and the module-level guard -/

/-- The three required environment values; `none` models an unset variable. -/
structure Config where
  secret_key : Option String
  secret_iv : Option String
  ecnryption_method : Option String

/-- JS falsiness of an optional string: `undefined` and `''` are falsy. -/
def jsFalsy : Option String → Bool
  | none => true
  | some s => s == ""

/-- The module-level constants derived at startup. -/
structure Derived where
  key : String
  encryptionIV : String
  method : String
deriving DecidableEq

/-- Loading `encryption.js`: the guard `if (!secret_key || !secret_iv ||
!ecnryption_method) throw …`, then the two hash-derived constants. -/
def initEncryption (cfg : Config) : Except String Derived :=
  if jsFalsy cfg.secret_key || jsFalsy cfg.secret_iv || jsFalsy cfg.ecnryption_method then
    .error "secretKey, secretIV, and ecnryptionMethod are required"
  else
    .ok
      { key := keyStr (cfg.secret_key.getD "")
        encryptionIV := encryptionIVStr (cfg.secret_iv.getD "")
        method := cfg.ecnryption_method.getD "" }

/-! ## The request handlers (`routes.js`) as a call-sequence process -/

/-- A request to one of the two handlers; the payload field may be absent. -/
inductive Call where
  | encrypt (data : Option String)
  | decrypt (encryptedData : Option String)

/-- Process-wide state: the module constants `key` and `encryptionIV`. -/
structure ProcState where
  key : List Char
  iv : List Char
deriving DecidableEq

/-- The state established once when `encryption.js` is loaded. -/
def initState (sk siv : String) : ProcState := ⟨keyChars sk, ivChars siv⟩

/-- Serve one request: both handlers only read the module constants. -/
def handleCall (s : ProcState) : Call → Except JsError String × ProcState
  | .encrypt d => (encryptCore s.key s.iv d, s)
  | .decrypt d => (decryptCore s.key s.iv d, s)

/-- Serve a sequence of requests, threading the process state. -/
def runCalls (s : ProcState) : List Call → List (Except JsError String) × ProcState
  | [] => ([], s)
  | c :: cs =>
      let r := handleCall s c
      let rest := runCalls r.2 cs
      (r.1 :: rest.1, rest.2)

/-- Membership in the standard (RFC 4648) Base64 alphabet, padding excluded. -/
def isStdB64Char (c : Char) : Bool :=
  (65 ≤ c.toNat && c.toNat ≤ 90) || (97 ≤ c.toNat && c.toNat ≤ 122) ||
    (48 ≤ c.toNat && c.toNat ≤ 57) || c == '+' || c == '/'

/-- Syntactic validity of standard Base64 text: length a multiple of four,
alphabet characters, then at most two trailing padding characters. -/
def validB64 (s : List Char) : Bool :=
  decide (s.length % 4 = 0) &&
    (s.takeWhile (fun c => !(c == '='))).all isStdB64Char &&
    (s.drop (s.takeWhile (fun c => !(c == '='))).length).all (fun c => c == '=') &&
    decide ((s.drop (s.takeWhile (fun c => !(c == '='))).length).length ≤ 2)

end EncDataNode

namespace EncDataNode

/-- Associativity instance letting `ac_rfl` normalize xor expressions. -/
instance : Std.Associative (fun x y : Nat => x ^^^ y) := ⟨Nat.xor_assoc⟩

/-- Commutativity instance letting `ac_rfl` normalize xor expressions. -/
instance : Std.Commutative (fun x y : Nat => x ^^^ y) := ⟨Nat.xor_comm⟩

/-! # Theorems

## Generic xor and byte-list lemmas -/

theorem xor_lt_256 {x y : Nat} (hx : x < 256) (hy : y < 256) : x ^^^ y < 256 :=
  Nat.xor_lt_two_pow (n := 8) hx hy

theorem xorBytes_cancel :
    ∀ {s k : List Nat}, s.length ≤ k.length → xorBytes (xorBytes s k) k = s := by
  intro s
  induction s with
  | nil => intro k h; cases k <;> rfl
  | cons a s ih =>
      intro k h
      cases k with
      | nil => simp at h
      | cons b k =>
          simp only [xorBytes, List.zipWith_cons_cons]
          have h2 : s.length ≤ k.length := by simpa using h
          have ih2 := ih h2
          simp only [xorBytes] at ih2
          rw [Nat.xor_cancel_right, ih2]

theorem length_xorBytes (v w : List Nat) : (xorBytes v w).length = min v.length w.length := by
  simp [xorBytes]

theorem bytes_xorBytes : ∀ {v w : List Nat}, Bytes v → Bytes w → Bytes (xorBytes v w) := by
  intro v
  induction v with
  | nil =>
      intro w _ _ x hx
      simp [xorBytes] at hx
  | cons a v ih =>
      intro w hv hw x hx
      cases w with
      | nil => simp [xorBytes] at hx
      | cons b w =>
          simp only [xorBytes, List.zipWith_cons_cons, List.mem_cons] at hx
          rcases hx with rfl | hx
          · exact xor_lt_256 (hv a (by simp)) (hw b (by simp))
          · exact ih (fun y hy => hv y (by simp [hy])) (fun y hy => hw y (by simp [hy])) x hx

theorem bytes_append {v w : List Nat} (hv : Bytes v) (hw : Bytes w) : Bytes (v ++ w) := by
  intro x hx
  rcases List.mem_append.mp hx with h | h
  · exact hv x h
  · exact hw x h

theorem nthN_lt_256 {l : List Nat} (h : Bytes l) (i : Nat) : nthN l i < 256 := by
  unfold nthN
  rcases Nat.lt_or_ge i l.length with hi | hi
  · rw [List.getD_eq_getElem l 0 hi]
    exact h _ (List.getElem_mem hi)
  · rw [List.getD_eq_default l 0 hi]
    norm_num

/-! ## GF(2^8): linearity and bounds of the MixColumns multipliers -/

theorem two_mul_xor (a b : Nat) : 2 * (a ^^^ b) = 2 * a ^^^ 2 * b := by
  have h : ∀ n : Nat, 2 * n = n <<< 1 := by
    intro n; rw [Nat.shiftLeft_eq]; ring
  rw [h, h, h]
  apply Nat.eq_of_testBit_eq
  intro i
  simp only [Nat.testBit_shiftLeft, Nat.testBit_xor]
  cases Decidable.em (1 ≤ i) with
  | inl hle => simp [hle]
  | inr hlt => simp [hlt]

theorem div_pow_xor (a b k : Nat) : (a ^^^ b) / 2 ^ k = a / 2 ^ k ^^^ b / 2 ^ k := by
  rw [← Nat.shiftRight_eq_div_pow, ← Nat.shiftRight_eq_div_pow, ← Nat.shiftRight_eq_div_pow]
  apply Nat.eq_of_testBit_eq
  intro i
  simp [Nat.testBit_shiftRight, Nat.testBit_xor]

theorem mod_pow_xor (a b k : Nat) : (a ^^^ b) % 2 ^ k = a % 2 ^ k ^^^ b % 2 ^ k := by
  apply Nat.eq_of_testBit_eq
  intro i
  simp only [Nat.testBit_mod_two_pow, Nat.testBit_xor]
  cases Decidable.em (i < k) with
  | inl hle => simp [hle]
  | inr hlt => simp [hlt]

theorem xor_mix (A B C D : Nat) : A ^^^ B ^^^ (C ^^^ D) = A ^^^ C ^^^ (B ^^^ D) := by
  rw [Nat.xor_assoc, Nat.xor_assoc]
  congr 1
  rw [← Nat.xor_assoc, ← Nat.xor_assoc]
  congr 1
  exact Nat.xor_comm B C

theorem mul27_bit_xor {x y : Nat} (hx : x ≤ 1) (hy : y ≤ 1) :
    27 * (x ^^^ y) = 27 * x ^^^ 27 * y := by
  interval_cases x <;> interval_cases y <;> decide

theorem xtime_eq (x : Nat) (hx : x < 256) :
    xtime x = 2 * (x % 128) ^^^ 27 * (x / 128) := by
  unfold xtime
  by_cases h : x < 128
  · have h1 : x % 128 = x := Nat.mod_eq_of_lt h
    have h2 : x / 128 = 0 := Nat.div_eq_of_lt h
    simp [h, h1, h2]
  · have h1 : x % 128 = x - 128 := by omega
    have h2 : x / 128 = 1 := by omega
    have h3 : 2 * x - 256 = 2 * (x - 128) := by omega
    simp [h, h1, h2, h3]

theorem xtime_lin {x y : Nat} (hx : x < 256) (hy : y < 256) :
    xtime (x ^^^ y) = xtime x ^^^ xtime y := by
  have hxy : x ^^^ y < 256 := xor_lt_256 hx hy
  rw [xtime_eq x hx, xtime_eq y hy, xtime_eq _ hxy]
  have hm : (x ^^^ y) % 128 = x % 128 ^^^ y % 128 := mod_pow_xor x y 7
  have hd : (x ^^^ y) / 128 = x / 128 ^^^ y / 128 := div_pow_xor x y 7
  rw [hm, hd, two_mul_xor, mul27_bit_xor (by omega) (by omega), xor_mix]

theorem xtime_lt {x : Nat} (hx : x < 256) : xtime x < 256 := by
  unfold xtime
  by_cases h : x < 128
  · simp only [h, if_true]; omega
  · simp only [h, if_false]
    have h2 : 2 * x - 256 < 256 := by omega
    exact xor_lt_256 h2 (by norm_num)

theorem mul2_lt {x : Nat} (hx : x < 256) : mul2 x < 256 := xtime_lt hx

theorem mul3_lt {x : Nat} (hx : x < 256) : mul3 x < 256 := xor_lt_256 (xtime_lt hx) hx

theorem mul9_lt {x : Nat} (hx : x < 256) : mul9 x < 256 :=
  xor_lt_256 (xtime_lt (xtime_lt (xtime_lt hx))) hx

theorem mul11_lt {x : Nat} (hx : x < 256) : mul11 x < 256 :=
  xor_lt_256 (xor_lt_256 (xtime_lt (xtime_lt (xtime_lt hx))) (xtime_lt hx)) hx

theorem mul13_lt {x : Nat} (hx : x < 256) : mul13 x < 256 :=
  xor_lt_256 (xor_lt_256 (xtime_lt (xtime_lt (xtime_lt hx))) (xtime_lt (xtime_lt hx))) hx

theorem mul14_lt {x : Nat} (hx : x < 256) : mul14 x < 256 :=
  xor_lt_256 (xor_lt_256 (xtime_lt (xtime_lt (xtime_lt hx))) (xtime_lt (xtime_lt hx)))
    (xtime_lt hx)

theorem xtime3_lin {x y : Nat} (hx : x < 256) (hy : y < 256) :
    xtime (xtime (xtime (x ^^^ y))) = xtime (xtime (xtime x)) ^^^ xtime (xtime (xtime y)) := by
  rw [xtime_lin hx hy, xtime_lin (xtime_lt hx) (xtime_lt hy),
    xtime_lin (xtime_lt (xtime_lt hx)) (xtime_lt (xtime_lt hy))]

theorem mul2_lin {x y : Nat} (hx : x < 256) (hy : y < 256) :
    mul2 (x ^^^ y) = mul2 x ^^^ mul2 y := xtime_lin hx hy

theorem mul3_lin {x y : Nat} (hx : x < 256) (hy : y < 256) :
    mul3 (x ^^^ y) = mul3 x ^^^ mul3 y := by
  unfold mul3
  rw [xtime_lin hx hy]
  ac_rfl

theorem mul9_lin {x y : Nat} (hx : x < 256) (hy : y < 256) :
    mul9 (x ^^^ y) = mul9 x ^^^ mul9 y := by
  unfold mul9
  rw [xtime3_lin hx hy]
  ac_rfl

theorem mul11_lin {x y : Nat} (hx : x < 256) (hy : y < 256) :
    mul11 (x ^^^ y) = mul11 x ^^^ mul11 y := by
  unfold mul11
  rw [xtime3_lin hx hy, xtime_lin hx hy]
  ac_rfl

theorem mul13_lin {x y : Nat} (hx : x < 256) (hy : y < 256) :
    mul13 (x ^^^ y) = mul13 x ^^^ mul13 y := by
  unfold mul13
  rw [xtime3_lin hx hy, xtime_lin hx hy, xtime_lin (xtime_lt hx) (xtime_lt hy)]
  ac_rfl

theorem mul14_lin {x y : Nat} (hx : x < 256) (hy : y < 256) :
    mul14 (x ^^^ y) = mul14 x ^^^ mul14 y := by
  unfold mul14
  rw [xtime3_lin hx hy, xtime_lin hx hy, xtime_lin (xtime_lt hx) (xtime_lt hy)]
  ac_rfl

/-! ## S-box facts -/

theorem sboxTab_bytes : ∀ x ∈ sboxTab, x < 256 := by decide

theorem invSboxTab_bytes : ∀ x ∈ invSboxTab, x < 256 := by decide

theorem sbox_lt (x : Nat) : sbox x < 256 := nthN_lt_256 sboxTab_bytes x

theorem invSbox_lt (x : Nat) : invSbox x < 256 := nthN_lt_256 invSboxTab_bytes x

theorem invSbox_sbox : ∀ x < 256, invSbox (sbox x) = x := by decide

/-! ## Destructuring length-16 lists -/

theorem cons_of_length {l : List Nat} {n : Nat} (h : l.length = n + 1) :
    ∃ a t, l = a :: t ∧ t.length = n := by
  cases l with
  | nil => simp at h
  | cons a t => exact ⟨a, t, rfl, by simpa using h⟩

theorem eq16 {l : List Nat} (h : l.length = 16) :
    ∃ a0 a1 a2 a3 a4 a5 a6 a7 a8 a9 a10 a11 a12 a13 a14 a15,
      l = [a0, a1, a2, a3, a4, a5, a6, a7, a8, a9, a10, a11, a12, a13, a14, a15] := by
  obtain ⟨a0, t0, rfl, h0⟩ := cons_of_length h
  obtain ⟨a1, t1, rfl, h1⟩ := cons_of_length h0
  obtain ⟨a2, t2, rfl, h2⟩ := cons_of_length h1
  obtain ⟨a3, t3, rfl, h3⟩ := cons_of_length h2
  obtain ⟨a4, t4, rfl, h4⟩ := cons_of_length h3
  obtain ⟨a5, t5, rfl, h5⟩ := cons_of_length h4
  obtain ⟨a6, t6, rfl, h6⟩ := cons_of_length h5
  obtain ⟨a7, t7, rfl, h7⟩ := cons_of_length h6
  obtain ⟨a8, t8, rfl, h8⟩ := cons_of_length h7
  obtain ⟨a9, t9, rfl, h9⟩ := cons_of_length h8
  obtain ⟨a10, t10, rfl, h10⟩ := cons_of_length h9
  obtain ⟨a11, t11, rfl, h11⟩ := cons_of_length h10
  obtain ⟨a12, t12, rfl, h12⟩ := cons_of_length h11
  obtain ⟨a13, t13, rfl, h13⟩ := cons_of_length h12
  obtain ⟨a14, t14, rfl, h14⟩ := cons_of_length h13
  obtain ⟨a15, t15, rfl, h15⟩ := cons_of_length h14
  rw [List.length_eq_zero] at h15
  subst h15
  exact ⟨a0, a1, a2, a3, a4, a5, a6, a7, a8, a9, a10, a11, a12, a13, a14, a15, rfl⟩

/-! ## SubBytes, ShiftRows, AddRoundKey lemmas -/

theorem invSubBytes_subBytes {s : List Nat} (h : Bytes s) :
    invSubBytes (subBytes s) = s := by
  unfold invSubBytes subBytes
  rw [List.map_map]
  have h2 : ∀ x ∈ s, (invSbox ∘ sbox) x = id x := fun x hx => invSbox_sbox x (h x hx)
  rw [List.map_congr_left h2, List.map_id]

theorem subBytes_length (s : List Nat) : (subBytes s).length = s.length := by
  simp [subBytes]

theorem subBytes_bytes (s : List Nat) : Bytes (subBytes s) := by
  intro x hx
  simp only [subBytes, List.mem_map] at hx
  obtain ⟨y, _, rfl⟩ := hx
  exact sbox_lt y

theorem invShiftRows_shiftRows {s : List Nat} (h : s.length = 16) :
    invShiftRows (shiftRows s) = s := by
  obtain ⟨a0, a1, a2, a3, a4, a5, a6, a7, a8, a9, a10, a11, a12, a13, a14, a15, rfl⟩ := eq16 h
  rfl

theorem shiftRows_length {s : List Nat} (h : s.length = 16) : (shiftRows s).length = 16 := by
  obtain ⟨a0, a1, a2, a3, a4, a5, a6, a7, a8, a9, a10, a11, a12, a13, a14, a15, rfl⟩ := eq16 h
  rfl

theorem shiftRows_bytes {s : List Nat} (h : s.length = 16) (hb : Bytes s) :
    Bytes (shiftRows s) := by
  obtain ⟨a0, a1, a2, a3, a4, a5, a6, a7, a8, a9, a10, a11, a12, a13, a14, a15, rfl⟩ := eq16 h
  intro x hx
  unfold shiftRows at hx
  fin_cases hx <;> apply hb <;> simp

theorem addRoundKey_cancel {k s : List Nat} (h : s.length ≤ k.length) :
    addRoundKey k (addRoundKey k s) = s := by
  unfold addRoundKey
  exact xorBytes_cancel h

theorem addRoundKey_length {k s : List Nat} (hk : k.length = 16) (hs : s.length = 16) :
    (addRoundKey k s).length = 16 := by
  simp [addRoundKey, xorBytes, hk, hs]

theorem addRoundKey_bytes {k s : List Nat} (hk : Bytes k) (hs : Bytes s) :
    Bytes (addRoundKey k s) := bytes_xorBytes hs hk

/-! ## MixColumns: the sixteen composite byte facts and the column inverse -/

theorem mixCompA : ∀ x < 256,
    mul14 (mul2 x) ^^^ (mul11 x ^^^ (mul13 x ^^^ mul9 (mul3 x))) = x ∧
    mul14 (mul3 x) ^^^ (mul11 (mul2 x) ^^^ (mul13 x ^^^ mul9 x)) = 0 ∧
    mul14 x ^^^ (mul11 (mul3 x) ^^^ (mul13 (mul2 x) ^^^ mul9 x)) = 0 ∧
    mul14 x ^^^ (mul11 x ^^^ (mul13 (mul3 x) ^^^ mul9 (mul2 x))) = 0 := by decide

theorem mixCompB : ∀ x < 256,
    mul9 (mul2 x) ^^^ (mul14 x ^^^ (mul11 x ^^^ mul13 (mul3 x))) = 0 ∧
    mul9 (mul3 x) ^^^ (mul14 (mul2 x) ^^^ (mul11 x ^^^ mul13 x)) = x ∧
    mul9 x ^^^ (mul14 (mul3 x) ^^^ (mul11 (mul2 x) ^^^ mul13 x)) = 0 ∧
    mul9 x ^^^ (mul14 x ^^^ (mul11 (mul3 x) ^^^ mul13 (mul2 x))) = 0 := by decide

theorem mixCompC : ∀ x < 256,
    mul13 (mul2 x) ^^^ (mul9 x ^^^ (mul14 x ^^^ mul11 (mul3 x))) = 0 ∧
    mul13 (mul3 x) ^^^ (mul9 (mul2 x) ^^^ (mul14 x ^^^ mul11 x)) = 0 ∧
    mul13 x ^^^ (mul9 (mul3 x) ^^^ (mul14 (mul2 x) ^^^ mul11 x)) = x ∧
    mul13 x ^^^ (mul9 x ^^^ (mul14 (mul3 x) ^^^ mul11 (mul2 x))) = 0 := by decide

theorem mixCompD : ∀ x < 256,
    mul11 (mul2 x) ^^^ (mul13 x ^^^ (mul9 x ^^^ mul14 (mul3 x))) = 0 ∧
    mul11 (mul3 x) ^^^ (mul13 (mul2 x) ^^^ (mul9 x ^^^ mul14 x)) = 0 ∧
    mul11 x ^^^ (mul13 (mul3 x) ^^^ (mul9 (mul2 x) ^^^ mul14 x)) = 0 ∧
    mul11 x ^^^ (mul13 x ^^^ (mul9 (mul3 x) ^^^ mul14 (mul2 x))) = x := by decide

theorem mul9_lin4 {w x y z : Nat} (hw : w < 256) (hx : x < 256) (hy : y < 256)
    (hz : z < 256) : mul9 (w ^^^ x ^^^ y ^^^ z) = mul9 w ^^^ mul9 x ^^^ mul9 y ^^^ mul9 z := by
  rw [mul9_lin (xor_lt_256 (xor_lt_256 hw hx) hy) hz,
    mul9_lin (xor_lt_256 hw hx) hy, mul9_lin hw hx]

theorem mul11_lin4 {w x y z : Nat} (hw : w < 256) (hx : x < 256) (hy : y < 256)
    (hz : z < 256) :
    mul11 (w ^^^ x ^^^ y ^^^ z) = mul11 w ^^^ mul11 x ^^^ mul11 y ^^^ mul11 z := by
  rw [mul11_lin (xor_lt_256 (xor_lt_256 hw hx) hy) hz,
    mul11_lin (xor_lt_256 hw hx) hy, mul11_lin hw hx]

theorem mul13_lin4 {w x y z : Nat} (hw : w < 256) (hx : x < 256) (hy : y < 256)
    (hz : z < 256) :
    mul13 (w ^^^ x ^^^ y ^^^ z) = mul13 w ^^^ mul13 x ^^^ mul13 y ^^^ mul13 z := by
  rw [mul13_lin (xor_lt_256 (xor_lt_256 hw hx) hy) hz,
    mul13_lin (xor_lt_256 hw hx) hy, mul13_lin hw hx]

theorem mul14_lin4 {w x y z : Nat} (hw : w < 256) (hx : x < 256) (hy : y < 256)
    (hz : z < 256) :
    mul14 (w ^^^ x ^^^ y ^^^ z) = mul14 w ^^^ mul14 x ^^^ mul14 y ^^^ mul14 z := by
  rw [mul14_lin (xor_lt_256 (xor_lt_256 hw hx) hy) hz,
    mul14_lin (xor_lt_256 hw hx) hy, mul14_lin hw hx]

theorem invMixCol0 {a b c d : Nat} (ha : a < 256) (hb : b < 256) (hc : c < 256)
    (hd : d < 256) :
    mul14 (mul2 a ^^^ mul3 b ^^^ c ^^^ d) ^^^ mul11 (a ^^^ mul2 b ^^^ mul3 c ^^^ d) ^^^
      mul13 (a ^^^ b ^^^ mul2 c ^^^ mul3 d) ^^^ mul9 (mul3 a ^^^ b ^^^ c ^^^ mul2 d) = a := by
  rw [mul14_lin4 (mul2_lt ha) (mul3_lt hb) hc hd, mul11_lin4 ha (mul2_lt hb) (mul3_lt hc) hd,
    mul13_lin4 ha hb (mul2_lt hc) (mul3_lt hd), mul9_lin4 (mul3_lt ha) hb hc (mul2_lt hd)]
  have hA := (mixCompA a ha).1
  have hB := (mixCompA b hb).2.1
  have hC := (mixCompA c hc).2.2.1
  have hD := (mixCompA d hd).2.2.2
  calc mul14 (mul2 a) ^^^ mul14 (mul3 b) ^^^ mul14 c ^^^ mul14 d ^^^
        (mul11 a ^^^ mul11 (mul2 b) ^^^ mul11 (mul3 c) ^^^ mul11 d) ^^^
        (mul13 a ^^^ mul13 b ^^^ mul13 (mul2 c) ^^^ mul13 (mul3 d)) ^^^
        (mul9 (mul3 a) ^^^ mul9 b ^^^ mul9 c ^^^ mul9 (mul2 d))
      = (mul14 (mul2 a) ^^^ (mul11 a ^^^ (mul13 a ^^^ mul9 (mul3 a)))) ^^^
        ((mul14 (mul3 b) ^^^ (mul11 (mul2 b) ^^^ (mul13 b ^^^ mul9 b))) ^^^
        ((mul14 c ^^^ (mul11 (mul3 c) ^^^ (mul13 (mul2 c) ^^^ mul9 c))) ^^^
        (mul14 d ^^^ (mul11 d ^^^ (mul13 (mul3 d) ^^^ mul9 (mul2 d)))))) := by ac_rfl
    _ = a := by rw [hA, hB, hC, hD]; simp

theorem invMixCol1 {a b c d : Nat} (ha : a < 256) (hb : b < 256) (hc : c < 256)
    (hd : d < 256) :
    mul9 (mul2 a ^^^ mul3 b ^^^ c ^^^ d) ^^^ mul14 (a ^^^ mul2 b ^^^ mul3 c ^^^ d) ^^^
      mul11 (a ^^^ b ^^^ mul2 c ^^^ mul3 d) ^^^ mul13 (mul3 a ^^^ b ^^^ c ^^^ mul2 d) = b := by
  rw [mul9_lin4 (mul2_lt ha) (mul3_lt hb) hc hd, mul14_lin4 ha (mul2_lt hb) (mul3_lt hc) hd,
    mul11_lin4 ha hb (mul2_lt hc) (mul3_lt hd), mul13_lin4 (mul3_lt ha) hb hc (mul2_lt hd)]
  have hA := (mixCompB a ha).1
  have hB := (mixCompB b hb).2.1
  have hC := (mixCompB c hc).2.2.1
  have hD := (mixCompB d hd).2.2.2
  calc mul9 (mul2 a) ^^^ mul9 (mul3 b) ^^^ mul9 c ^^^ mul9 d ^^^
        (mul14 a ^^^ mul14 (mul2 b) ^^^ mul14 (mul3 c) ^^^ mul14 d) ^^^
        (mul11 a ^^^ mul11 b ^^^ mul11 (mul2 c) ^^^ mul11 (mul3 d)) ^^^
        (mul13 (mul3 a) ^^^ mul13 b ^^^ mul13 c ^^^ mul13 (mul2 d))
      = (mul9 (mul2 a) ^^^ (mul14 a ^^^ (mul11 a ^^^ mul13 (mul3 a)))) ^^^
        ((mul9 (mul3 b) ^^^ (mul14 (mul2 b) ^^^ (mul11 b ^^^ mul13 b))) ^^^
        ((mul9 c ^^^ (mul14 (mul3 c) ^^^ (mul11 (mul2 c) ^^^ mul13 c))) ^^^
        (mul9 d ^^^ (mul14 d ^^^ (mul11 (mul3 d) ^^^ mul13 (mul2 d)))))) := by ac_rfl
    _ = b := by rw [hA, hB, hC, hD]; simp

theorem invMixCol2 {a b c d : Nat} (ha : a < 256) (hb : b < 256) (hc : c < 256)
    (hd : d < 256) :
    mul13 (mul2 a ^^^ mul3 b ^^^ c ^^^ d) ^^^ mul9 (a ^^^ mul2 b ^^^ mul3 c ^^^ d) ^^^
      mul14 (a ^^^ b ^^^ mul2 c ^^^ mul3 d) ^^^ mul11 (mul3 a ^^^ b ^^^ c ^^^ mul2 d) = c := by
  rw [mul13_lin4 (mul2_lt ha) (mul3_lt hb) hc hd, mul9_lin4 ha (mul2_lt hb) (mul3_lt hc) hd,
    mul14_lin4 ha hb (mul2_lt hc) (mul3_lt hd), mul11_lin4 (mul3_lt ha) hb hc (mul2_lt hd)]
  have hA := (mixCompC a ha).1
  have hB := (mixCompC b hb).2.1
  have hC := (mixCompC c hc).2.2.1
  have hD := (mixCompC d hd).2.2.2
  calc mul13 (mul2 a) ^^^ mul13 (mul3 b) ^^^ mul13 c ^^^ mul13 d ^^^
        (mul9 a ^^^ mul9 (mul2 b) ^^^ mul9 (mul3 c) ^^^ mul9 d) ^^^
        (mul14 a ^^^ mul14 b ^^^ mul14 (mul2 c) ^^^ mul14 (mul3 d)) ^^^
        (mul11 (mul3 a) ^^^ mul11 b ^^^ mul11 c ^^^ mul11 (mul2 d))
      = (mul13 (mul2 a) ^^^ (mul9 a ^^^ (mul14 a ^^^ mul11 (mul3 a)))) ^^^
        ((mul13 (mul3 b) ^^^ (mul9 (mul2 b) ^^^ (mul14 b ^^^ mul11 b))) ^^^
        ((mul13 c ^^^ (mul9 (mul3 c) ^^^ (mul14 (mul2 c) ^^^ mul11 c))) ^^^
        (mul13 d ^^^ (mul9 d ^^^ (mul14 (mul3 d) ^^^ mul11 (mul2 d)))))) := by ac_rfl
    _ = c := by rw [hA, hB, hC, hD]; simp

theorem invMixCol3 {a b c d : Nat} (ha : a < 256) (hb : b < 256) (hc : c < 256)
    (hd : d < 256) :
    mul11 (mul2 a ^^^ mul3 b ^^^ c ^^^ d) ^^^ mul13 (a ^^^ mul2 b ^^^ mul3 c ^^^ d) ^^^
      mul9 (a ^^^ b ^^^ mul2 c ^^^ mul3 d) ^^^ mul14 (mul3 a ^^^ b ^^^ c ^^^ mul2 d) = d := by
  rw [mul11_lin4 (mul2_lt ha) (mul3_lt hb) hc hd, mul13_lin4 ha (mul2_lt hb) (mul3_lt hc) hd,
    mul9_lin4 ha hb (mul2_lt hc) (mul3_lt hd), mul14_lin4 (mul3_lt ha) hb hc (mul2_lt hd)]
  have hA := (mixCompD a ha).1
  have hB := (mixCompD b hb).2.1
  have hC := (mixCompD c hc).2.2.1
  have hD := (mixCompD d hd).2.2.2
  calc mul11 (mul2 a) ^^^ mul11 (mul3 b) ^^^ mul11 c ^^^ mul11 d ^^^
        (mul13 a ^^^ mul13 (mul2 b) ^^^ mul13 (mul3 c) ^^^ mul13 d) ^^^
        (mul9 a ^^^ mul9 b ^^^ mul9 (mul2 c) ^^^ mul9 (mul3 d)) ^^^
        (mul14 (mul3 a) ^^^ mul14 b ^^^ mul14 c ^^^ mul14 (mul2 d))
      = (mul11 (mul2 a) ^^^ (mul13 a ^^^ (mul9 a ^^^ mul14 (mul3 a)))) ^^^
        ((mul11 (mul3 b) ^^^ (mul13 (mul2 b) ^^^ (mul9 b ^^^ mul14 b))) ^^^
        ((mul11 c ^^^ (mul13 (mul3 c) ^^^ (mul9 (mul2 c) ^^^ mul14 c))) ^^^
        (mul11 d ^^^ (mul13 d ^^^ (mul9 (mul3 d) ^^^ mul14 (mul2 d)))))) := by ac_rfl
    _ = d := by rw [hA, hB, hC, hD]; simp

theorem invMixColumns_mixColumns {s : List Nat} (h : s.length = 16) (hb : Bytes s) :
    invMixColumns (mixColumns s) = s := by
  obtain ⟨a0, a1, a2, a3, a4, a5, a6, a7, a8, a9, a10, a11, a12, a13, a14, a15, rfl⟩ := eq16 h
  have B : ∀ x ∈ [a0, a1, a2, a3, a4, a5, a6, a7, a8, a9, a10, a11, a12, a13, a14, a15],
      x < 256 := hb
  simp only [List.mem_cons, List.not_mem_nil, or_false, forall_eq_or_imp, forall_eq] at B
  obtain ⟨h0, h1, h2, h3, h4, h5, h6, h7, h8, h9, h10, h11, h12, h13, h14, h15⟩ := B
  show [_, _, _, _, _, _, _, _, _, _, _, _, _, _, _, _] = _
  rw [invMixCol0 h0 h1 h2 h3, invMixCol1 h0 h1 h2 h3, invMixCol2 h0 h1 h2 h3,
    invMixCol3 h0 h1 h2 h3, invMixCol0 h4 h5 h6 h7, invMixCol1 h4 h5 h6 h7,
    invMixCol2 h4 h5 h6 h7, invMixCol3 h4 h5 h6 h7, invMixCol0 h8 h9 h10 h11,
    invMixCol1 h8 h9 h10 h11, invMixCol2 h8 h9 h10 h11, invMixCol3 h8 h9 h10 h11,
    invMixCol0 h12 h13 h14 h15, invMixCol1 h12 h13 h14 h15, invMixCol2 h12 h13 h14 h15,
    invMixCol3 h12 h13 h14 h15]

theorem mixColumns_length {s : List Nat} (h : s.length = 16) : (mixColumns s).length = 16 := by
  obtain ⟨a0, a1, a2, a3, a4, a5, a6, a7, a8, a9, a10, a11, a12, a13, a14, a15, rfl⟩ := eq16 h
  rfl

theorem mixColumns_bytes {s : List Nat} (h : s.length = 16) (hb : Bytes s) :
    Bytes (mixColumns s) := by
  obtain ⟨a0, a1, a2, a3, a4, a5, a6, a7, a8, a9, a10, a11, a12, a13, a14, a15, rfl⟩ := eq16 h
  have B : ∀ x ∈ [a0, a1, a2, a3, a4, a5, a6, a7, a8, a9, a10, a11, a12, a13, a14, a15],
      x < 256 := hb
  simp only [List.mem_cons, List.not_mem_nil, or_false, forall_eq_or_imp, forall_eq] at B
  obtain ⟨h0, h1, h2, h3, h4, h5, h6, h7, h8, h9, h10, h11, h12, h13, h14, h15⟩ := B
  intro x hx
  unfold mixColumns at hx
  fin_cases hx <;>
    first
      | exact xor_lt_256 (xor_lt_256 (xor_lt_256 (mul2_lt (by assumption))
          (mul3_lt (by assumption))) (by assumption)) (by assumption)
      | exact xor_lt_256 (xor_lt_256 (xor_lt_256 (by assumption)
          (mul2_lt (by assumption))) (mul3_lt (by assumption))) (by assumption)
      | exact xor_lt_256 (xor_lt_256 (xor_lt_256 (by assumption)
          (by assumption)) (mul2_lt (by assumption))) (mul3_lt (by assumption))
      | exact xor_lt_256 (xor_lt_256 (xor_lt_256 (mul3_lt (by assumption))
          (by assumption)) (by assumption)) (mul2_lt (by assumption))

/-! ## The AES block cipher: decryption inverts encryption -/

theorem encRounds_ok :
    ∀ (rks : List (List Nat)), (∀ k ∈ rks, k.length = 16 ∧ Bytes k) →
      ∀ s, s.length = 16 → Bytes s →
        (encRounds rks s).length = 16 ∧ Bytes (encRounds rks s) := by
  intro rks
  induction rks with
  | nil => exact fun _ s hl hb => ⟨hl, hb⟩
  | cons k rest ih =>
      intro hk s hl hb
      have hk1 : k.length = 16 ∧ Bytes k := hk k (by simp)
      have hrest : ∀ j ∈ rest, j.length = 16 ∧ Bytes j := fun j hj => hk j (by simp [hj])
      cases rest with
      | nil =>
          constructor
          · exact addRoundKey_length hk1.1 (shiftRows_length (by simp [subBytes, hl]))
          · exact addRoundKey_bytes hk1.2
              (shiftRows_bytes (by simp [subBytes, hl]) (subBytes_bytes s))
      | cons k2 rest2 =>
          have hml : (mixColumns (shiftRows (subBytes s))).length = 16 :=
            mixColumns_length (shiftRows_length (by simp [subBytes, hl]))
          have hmb : Bytes (mixColumns (shiftRows (subBytes s))) :=
            mixColumns_bytes (shiftRows_length (by simp [subBytes, hl]))
              (shiftRows_bytes (by simp [subBytes, hl]) (subBytes_bytes s))
          exact ih hrest _ (addRoundKey_length hk1.1 hml) (addRoundKey_bytes hk1.2 hmb)

theorem decRounds_encRounds :
    ∀ (rks : List (List Nat)), (∀ k ∈ rks, k.length = 16 ∧ Bytes k) →
      ∀ s, s.length = 16 → Bytes s → decRounds rks (encRounds rks s) = s := by
  intro rks
  induction rks with
  | nil => exact fun _ _ _ _ => rfl
  | cons k rest ih =>
      intro hk s hl hb
      have hk1 : k.length = 16 ∧ Bytes k := hk k (by simp)
      have hsl : (subBytes s).length = 16 := by simp [subBytes, hl]
      have hshl : (shiftRows (subBytes s)).length = 16 := shiftRows_length hsl
      have hshb : Bytes (shiftRows (subBytes s)) := shiftRows_bytes hsl (subBytes_bytes s)
      cases rest with
      | nil =>
          show invSubBytes (invShiftRows (addRoundKey k (addRoundKey k
            (shiftRows (subBytes s))))) = s
          rw [addRoundKey_cancel (by rw [hshl, hk1.1]), invShiftRows_shiftRows hsl,
            invSubBytes_subBytes hb]
      | cons k2 rest2 =>
          have hrest : ∀ j ∈ k2 :: rest2, j.length = 16 ∧ Bytes j :=
            fun j hj => hk j (by simp [hj])
          have hml : (mixColumns (shiftRows (subBytes s))).length = 16 := mixColumns_length hshl
          have hmb : Bytes (mixColumns (shiftRows (subBytes s))) := mixColumns_bytes hshl hshb
          show invSubBytes (invShiftRows (invMixColumns (addRoundKey k
              (decRounds (k2 :: rest2) (encRounds (k2 :: rest2) (addRoundKey k
                (mixColumns (shiftRows (subBytes s)))))))))
            = s
          rw [ih hrest _ (addRoundKey_length hk1.1 hml) (addRoundKey_bytes hk1.2 hmb),
            addRoundKey_cancel (by rw [hml, hk1.1]), invMixColumns_mixColumns hshl hshb,
            invShiftRows_shiftRows hsl, invSubBytes_subBytes hb]

theorem decryptBlock_encryptBlock {rks : List (List Nat)}
    (hk : ∀ k ∈ rks, k.length = 16 ∧ Bytes k) {s : List Nat} (hl : s.length = 16)
    (hb : Bytes s) : decryptBlock rks (encryptBlock rks s) = s := by
  cases rks with
  | nil => rfl
  | cons k0 rest =>
      have hk0 : k0.length = 16 ∧ Bytes k0 := hk k0 (by simp)
      have hrest : ∀ j ∈ rest, j.length = 16 ∧ Bytes j := fun j hj => hk j (by simp [hj])
      show addRoundKey k0 (decRounds rest (encRounds rest (addRoundKey k0 s))) = s
      rw [decRounds_encRounds rest hrest _ (addRoundKey_length hk0.1 hl)
          (addRoundKey_bytes hk0.2 hb),
        addRoundKey_cancel (by rw [hl, hk0.1])]

theorem encryptBlock_ok {rks : List (List Nat)}
    (hk : ∀ k ∈ rks, k.length = 16 ∧ Bytes k) {s : List Nat} (hl : s.length = 16)
    (hb : Bytes s) : (encryptBlock rks s).length = 16 ∧ Bytes (encryptBlock rks s) := by
  cases rks with
  | nil => exact ⟨hl, hb⟩
  | cons k0 rest =>
      have hk0 : k0.length = 16 ∧ Bytes k0 := hk k0 (by simp)
      have hrest : ∀ j ∈ rest, j.length = 16 ∧ Bytes j := fun j hj => hk j (by simp [hj])
      exact encRounds_ok rest hrest _ (addRoundKey_length hk0.1 hl)
        (addRoundKey_bytes hk0.2 hb)

/-! ## Key expansion: every round key is a 16-byte block -/

theorem rcon_lt (i : Nat) : rcon i < 256 := by
  unfold rcon
  split <;> norm_num

theorem toWords_ok :
    ∀ {key : List Nat}, Bytes key → ∀ w ∈ toWords key, w.length = 4 ∧ Bytes w := by
  intro key
  induction key using toWords.induct with
  | case1 a b c d rest ih =>
      intro hb w hw
      simp only [toWords, List.mem_cons] at hw
      rcases hw with rfl | hw
      · refine ⟨rfl, ?_⟩
        intro x hx
        fin_cases hx <;> apply hb <;> simp
      · exact ih (fun x hx => hb x (by simp at hx ⊢; tauto)) w hw
  | case2 l h =>
      intro hb w hw
      rw [toWords] at hw
      · simp at hw
      · exact h

theorem nthWord_ok {ws : List (List Nat)} (h : ∀ w ∈ ws, w.length = 4 ∧ Bytes w) (i : Nat) :
    (nthWord ws i).length = 4 ∧ Bytes (nthWord ws i) := by
  unfold nthWord
  rcases Nat.lt_or_ge i ws.length with hi | hi
  · rw [List.getD_eq_getElem ws _ hi]
    exact h _ (List.getElem_mem hi)
  · rw [List.getD_eq_default ws _ hi]
    exact ⟨rfl, by intro x hx; fin_cases hx <;> norm_num⟩

theorem rotWord_ok {w : List Nat} (h : w.length = 4 ∧ Bytes w) :
    (rotWord w).length = 4 ∧ Bytes (rotWord w) := by
  obtain ⟨hl, hb⟩ := h
  cases w with
  | nil => simp at hl
  | cons a t =>
      refine ⟨by simp [rotWord]; simp at hl; omega, ?_⟩
      intro x hx
      simp only [rotWord, List.mem_append, List.mem_cons, List.not_mem_nil, or_false] at hx
      rcases hx with hx | rfl
      · exact hb x (by simp [hx])
      · exact hb x (by simp)

theorem subWord_ok {w : List Nat} (h : w.length = 4) :
    (subWord w).length = 4 ∧ Bytes (subWord w) := by
  refine ⟨by simp [subWord, h], ?_⟩
  intro x hx
  simp only [subWord, List.mem_map] at hx
  obtain ⟨y, _, rfl⟩ := hx
  exact sbox_lt y

theorem xorBytes_ok4 {v w : List Nat} (hv : v.length = 4 ∧ Bytes v)
    (hw : w.length = 4 ∧ Bytes w) :
    (xorBytes v w).length = 4 ∧ Bytes (xorBytes v w) := by
  refine ⟨by simp [xorBytes, hv.1, hw.1], bytes_xorBytes hv.2 hw.2⟩

theorem nextWord_ok {ws : List (List Nat)} (h : ∀ w ∈ ws, w.length = 4 ∧ Bytes w) :
    (nextWord ws).length = 4 ∧ Bytes (nextWord ws) := by
  unfold nextWord
  apply xorBytes_ok4 (nthWord_ok h _)
  split
  · apply xorBytes_ok4 (subWord_ok (rotWord_ok (nthWord_ok h _)).1)
    refine ⟨rfl, ?_⟩
    intro x hx
    fin_cases hx
    · exact rcon_lt _
    all_goals norm_num
  split
  · exact subWord_ok (nthWord_ok h _).1
  · exact nthWord_ok h _

theorem expandFrom_ok :
    ∀ (n : Nat) {ws : List (List Nat)}, (∀ w ∈ ws, w.length = 4 ∧ Bytes w) →
      ∀ w ∈ expandFrom n ws, w.length = 4 ∧ Bytes w := by
  intro n
  induction n with
  | zero => exact fun h => h
  | succ n ih =>
      intro ws h
      apply ih
      intro w hw
      rcases List.mem_append.mp hw with hw | hw
      · exact h w hw
      · simp only [List.mem_singleton] at hw
        subst hw
        exact nextWord_ok h

theorem groupRK_ok :
    ∀ {ws : List (List Nat)}, (∀ w ∈ ws, w.length = 4 ∧ Bytes w) →
      ∀ k ∈ groupRK ws, k.length = 16 ∧ Bytes k := by
  intro ws
  induction ws using groupRK.induct with
  | case1 w0 w1 w2 w3 rest ih =>
      intro h k hk
      simp only [groupRK, List.mem_cons] at hk
      rcases hk with rfl | hk
      · have h0 := h w0 (by simp)
        have h1 := h w1 (by simp)
        have h2 := h w2 (by simp)
        have h3 := h w3 (by simp)
        refine ⟨by simp [h0.1, h1.1, h2.1, h3.1], ?_⟩
        exact bytes_append (bytes_append (bytes_append h0.2 h1.2) h2.2) h3.2
      · exact ih (fun w hw => h w (by simp at hw ⊢; tauto)) k hk
  | case2 l h2 =>
      intro h k hk
      rw [groupRK] at hk
      · simp at hk
      · exact h2

theorem roundKeys_ok {key : List Nat} (h : Bytes key) :
    ∀ k ∈ roundKeys key, k.length = 16 ∧ Bytes k :=
  groupRK_ok (expandFrom_ok 52 (toWords_ok h))

/-! ## Chunking, flattening, CBC chaining -/

theorem cons_of_le {l : List Nat} (h : 1 ≤ l.length) :
    ∃ a t, l = a :: t ∧ t.length = l.length - 1 := by
  cases l with
  | nil => simp at h
  | cons a t => exact ⟨a, t, rfl, by simp⟩

theorem cons16_of_le {l : List Nat} (h : 16 ≤ l.length) :
    ∃ b0 b1 b2 b3 b4 b5 b6 b7 b8 b9 b10 b11 b12 b13 b14 b15 rest,
      l = b0 :: b1 :: b2 :: b3 :: b4 :: b5 :: b6 :: b7 ::
        b8 :: b9 :: b10 :: b11 :: b12 :: b13 :: b14 :: b15 :: rest := by
  obtain ⟨b0, t0, rfl, h0⟩ := cons_of_le (l := l) (by omega)
  simp only [List.length_cons] at h
  obtain ⟨b1, t1, rfl, h1⟩ := cons_of_le (l := t0) (by omega)
  simp only [List.length_cons] at h
  obtain ⟨b2, t2, rfl, h2⟩ := cons_of_le (l := t1) (by omega)
  simp only [List.length_cons] at h
  obtain ⟨b3, t3, rfl, h3⟩ := cons_of_le (l := t2) (by omega)
  simp only [List.length_cons] at h
  obtain ⟨b4, t4, rfl, h4⟩ := cons_of_le (l := t3) (by omega)
  simp only [List.length_cons] at h
  obtain ⟨b5, t5, rfl, h5⟩ := cons_of_le (l := t4) (by omega)
  simp only [List.length_cons] at h
  obtain ⟨b6, t6, rfl, h6⟩ := cons_of_le (l := t5) (by omega)
  simp only [List.length_cons] at h
  obtain ⟨b7, t7, rfl, h7⟩ := cons_of_le (l := t6) (by omega)
  simp only [List.length_cons] at h
  obtain ⟨b8, t8, rfl, h8⟩ := cons_of_le (l := t7) (by omega)
  simp only [List.length_cons] at h
  obtain ⟨b9, t9, rfl, h9⟩ := cons_of_le (l := t8) (by omega)
  simp only [List.length_cons] at h
  obtain ⟨b10, t10, rfl, h10⟩ := cons_of_le (l := t9) (by omega)
  simp only [List.length_cons] at h
  obtain ⟨b11, t11, rfl, h11⟩ := cons_of_le (l := t10) (by omega)
  simp only [List.length_cons] at h
  obtain ⟨b12, t12, rfl, h12⟩ := cons_of_le (l := t11) (by omega)
  simp only [List.length_cons] at h
  obtain ⟨b13, t13, rfl, h13⟩ := cons_of_le (l := t12) (by omega)
  simp only [List.length_cons] at h
  obtain ⟨b14, t14, rfl, h14⟩ := cons_of_le (l := t13) (by omega)
  simp only [List.length_cons] at h
  obtain ⟨b15, t15, rfl, h15⟩ := cons_of_le (l := t14) (by omega)
  exact ⟨b0, b1, b2, b3, b4, b5, b6, b7, b8, b9, b10, b11, b12, b13, b14, b15, t15, rfl⟩

theorem chunk16_spec :
    ∀ {l : List Nat}, l.length % 16 = 0 →
      (∀ b ∈ chunk16 l, b.length = 16 ∧ (Bytes l → Bytes b)) ∧ (chunk16 l).flatten = l := by
  intro l
  induction l using chunk16.induct with
  | case1 b0 b1 b2 b3 b4 b5 b6 b7 b8 b9 b10 b11 b12 b13 b14 b15 rest ih =>
      intro hm
      have hm2 : rest.length % 16 = 0 := by
        simp only [List.length_cons] at hm
        omega
      obtain ⟨ihb, ihf⟩ := ih hm2
      constructor
      · intro b hb
        simp only [chunk16, List.mem_cons] at hb
        rcases hb with rfl | hb
        · refine ⟨rfl, ?_⟩
          intro hby x hx
          fin_cases hx <;> apply hby <;> simp
        · obtain ⟨hbl, hbb⟩ := ihb b hb
          exact ⟨hbl, fun hby => hbb (fun x hx => hby x (by simp [hx]))⟩
      · show _ ++ _ = _
        rw [ihf]
        rfl
  | case2 l h =>
      intro hm
      have : ¬ 16 ≤ l.length := by
        intro hge
        obtain ⟨b0, b1, b2, b3, b4, b5, b6, b7, b8, b9, b10, b11, b12, b13, b14, b15, rest,
          rfl⟩ := cons16_of_le hge
        exact h b0 b1 b2 b3 b4 b5 b6 b7 b8 b9 b10 b11 b12 b13 b14 b15 rest rfl
      have hl0 : l.length = 0 := by omega
      rw [List.length_eq_zero] at hl0
      subst hl0
      exact ⟨by intro b hb; simp [chunk16] at hb, rfl⟩

theorem chunk16_flatten :
    ∀ {bl : List (List Nat)}, (∀ b ∈ bl, b.length = 16) → chunk16 bl.flatten = bl := by
  intro bl
  induction bl with
  | nil => intro _; rfl
  | cons b rest ih =>
      intro h
      obtain ⟨a0, a1, a2, a3, a4, a5, a6, a7, a8, a9, a10, a11, a12, a13, a14, a15, rfl⟩ :=
        eq16 (h b (by simp))
      show chunk16 (_ :: _ :: _ :: _ :: _ :: _ :: _ :: _ ::
        _ :: _ :: _ :: _ :: _ :: _ :: _ :: _ :: List.flatten rest) = _
      rw [chunk16, ih (fun x hx => h x (by simp [hx]))]

theorem flatten_length16 :
    ∀ {bl : List (List Nat)}, (∀ b ∈ bl, b.length = 16) →
      bl.flatten.length = 16 * bl.length := by
  intro bl
  induction bl with
  | nil => intro _; rfl
  | cons b rest ih =>
      intro h
      simp only [List.flatten_cons, List.length_append, List.length_cons,
        h b (by simp), ih (fun x hx => h x (by simp [hx]))]
      ring

theorem bytes_flatten {bl : List (List Nat)} (h : ∀ b ∈ bl, Bytes b) :
    Bytes bl.flatten := by
  intro x hx
  rw [List.mem_flatten] at hx
  obtain ⟨b, hb, hxb⟩ := hx
  exact h b hb x hxb

theorem cbcEncBlocks_ok {rks : List (List Nat)}
    (hk : ∀ k ∈ rks, k.length = 16 ∧ Bytes k) :
    ∀ (bl : List (List Nat)) (prev : List Nat), (∀ b ∈ bl, b.length = 16 ∧ Bytes b) →
      prev.length = 16 → Bytes prev →
      ∀ c ∈ cbcEncBlocks rks prev bl, c.length = 16 ∧ Bytes c := by
  intro bl
  induction bl with
  | nil => intro prev _ _ _ c hc; simp [cbcEncBlocks] at hc
  | cons b rest ih =>
      intro prev hbl hpl hpb c hc
      have hb := hbl b (by simp)
      have hxl : (xorBytes b prev).length = 16 := by simp [xorBytes, hb.1, hpl]
      have hxb : Bytes (xorBytes b prev) := bytes_xorBytes hb.2 hpb
      have henc := encryptBlock_ok hk hxl hxb
      simp only [cbcEncBlocks, List.mem_cons] at hc
      rcases hc with rfl | hc
      · exact henc
      · exact ih _ (fun x hx => hbl x (by simp [hx])) henc.1 henc.2 c hc

theorem cbcDecBlocks_cbcEncBlocks {rks : List (List Nat)}
    (hk : ∀ k ∈ rks, k.length = 16 ∧ Bytes k) :
    ∀ (bl : List (List Nat)) (prev : List Nat), (∀ b ∈ bl, b.length = 16 ∧ Bytes b) →
      prev.length = 16 → Bytes prev →
      cbcDecBlocks rks prev (cbcEncBlocks rks prev bl) = bl := by
  intro bl
  induction bl with
  | nil => intro prev _ _ _; rfl
  | cons b rest ih =>
      intro prev hbl hpl hpb
      have hb := hbl b (by simp)
      have hxl : (xorBytes b prev).length = 16 := by simp [xorBytes, hb.1, hpl]
      have hxb : Bytes (xorBytes b prev) := bytes_xorBytes hb.2 hpb
      have henc := encryptBlock_ok hk hxl hxb
      show xorBytes (decryptBlock rks (encryptBlock rks (xorBytes b prev))) prev ::
        cbcDecBlocks rks _ (cbcEncBlocks rks _ rest) = b :: rest
      rw [decryptBlock_encryptBlock hk hxl hxb,
        xorBytes_cancel (by rw [hb.1, hpl]),
        ih _ (fun x hx => hbl x (by simp [hx])) henc.1 henc.2]

/-! ## PKCS#7 padding -/

theorem getLast?_replicate (n v : Nat) : (List.replicate (n + 1) v).getLast? = some v := by
  rw [List.replicate_succ', List.getLast?_concat]

theorem pkcs7Unpad_pkcs7Pad {m : List Nat} : pkcs7Unpad (pkcs7Pad m) = some m := by
  have hp1 : 1 ≤ 16 - m.length % 16 := by omega
  have hp16 : 16 - m.length % 16 ≤ 16 := by omega
  set p := 16 - m.length % 16 with hp
  obtain ⟨q, hq⟩ : ∃ q, p = q + 1 := ⟨p - 1, by omega⟩
  unfold pkcs7Pad pkcs7Unpad
  rw [← hp, hq, List.getLast?_append, getLast?_replicate]
  simp only [Option.or_some]
  have hlen : (m ++ List.replicate (q + 1) (q + 1)).length = m.length + (q + 1) := by
    simp
  rw [if_pos]
  · rw [hlen]
    have h1 : m.length + (q + 1) - (q + 1) = m.length := by omega
    rw [h1, ← hq]
    rw [hq]
    rw [show m.length = m.length from rfl]
    have := List.take_left m (List.replicate (q + 1) (q + 1))
    simp only [this]
  · refine ⟨by omega, by omega, by rw [hlen]; omega, ?_⟩
    rw [hlen]
    have h1 : m.length + (q + 1) - (q + 1) = m.length := by omega
    rw [h1]
    have h2 := List.drop_left m (List.replicate (q + 1) (q + 1))
    rw [h2]
    rw [List.all_eq_true]
    intro x hx
    rw [List.eq_of_mem_replicate hx]
    exact beq_self_eq_true _

theorem pkcs7Pad_length (m : List Nat) :
    (pkcs7Pad m).length = 16 * (m.length / 16 + 1) := by
  unfold pkcs7Pad
  simp only [List.length_append, List.length_replicate]
  omega

theorem pkcs7Pad_bytes {m : List Nat} (h : Bytes m) : Bytes (pkcs7Pad m) := by
  apply bytes_append h
  intro x hx
  rw [List.eq_of_mem_replicate hx]
  omega

/-! ## AES-CBC round trip -/

theorem cbcEncBlocks_length (rks : List (List Nat)) :
    ∀ (bl : List (List Nat)) (prev : List Nat),
      (cbcEncBlocks rks prev bl).length = bl.length := by
  intro bl
  induction bl with
  | nil => intro prev; rfl
  | cons b rest ih =>
      intro prev
      simp only [cbcEncBlocks, List.length_cons]
      rw [ih]

theorem aesCbcEncrypt_length {key iv pt : List Nat} (hkey : Bytes key)
    (hiv : iv.length = 16) (hivb : Bytes iv) (hpt : Bytes pt) :
    (aesCbcEncrypt key iv pt).length = 16 * (pt.length / 16 + 1) := by
  have hrk := roundKeys_ok hkey
  have hpadlen : (pkcs7Pad pt).length % 16 = 0 := by
    rw [pkcs7Pad_length]; omega
  obtain ⟨hblocks, hflat⟩ := chunk16_spec hpadlen
  have hbl : ∀ b ∈ chunk16 (pkcs7Pad pt), b.length = 16 ∧ Bytes b :=
    fun b hb => ⟨(hblocks b hb).1, (hblocks b hb).2 (pkcs7Pad_bytes hpt)⟩
  have henc := cbcEncBlocks_ok hrk _ iv hbl hiv hivb
  have h16 : 16 * (chunk16 (pkcs7Pad pt)).length = (pkcs7Pad pt).length := by
    conv_rhs => rw [← hflat]
    rw [flatten_length16 (fun b hb => (hblocks b hb).1)]
  unfold aesCbcEncrypt
  rw [flatten_length16 (fun b hb => (henc b hb).1), cbcEncBlocks_length]
  rw [pkcs7Pad_length] at h16
  omega

theorem aesCbcDecrypt_aesCbcEncrypt {key iv pt : List Nat} (hkey : Bytes key)
    (hiv : iv.length = 16) (hivb : Bytes iv) (hpt : Bytes pt) :
    aesCbcDecrypt key iv (aesCbcEncrypt key iv pt) = some pt := by
  have hrk := roundKeys_ok hkey
  have hpadlen : (pkcs7Pad pt).length % 16 = 0 := by
    rw [pkcs7Pad_length]; omega
  obtain ⟨hblocks, hflat⟩ := chunk16_spec hpadlen
  have hbl : ∀ b ∈ chunk16 (pkcs7Pad pt), b.length = 16 ∧ Bytes b :=
    fun b hb => ⟨(hblocks b hb).1, (hblocks b hb).2 (pkcs7Pad_bytes hpt)⟩
  have henc := cbcEncBlocks_ok hrk _ iv hbl hiv hivb
  have hctlen : (aesCbcEncrypt key iv pt).length =
      16 * (cbcEncBlocks (roundKeys key) iv (chunk16 (pkcs7Pad pt))).length := by
    unfold aesCbcEncrypt
    exact flatten_length16 (fun b hb => (henc b hb).1)
  have hnb : (chunk16 (pkcs7Pad pt)).length =
      (cbcEncBlocks (roundKeys key) iv (chunk16 (pkcs7Pad pt))).length :=
    (cbcEncBlocks_length _ _ iv).symm
  have h16 : 16 * (chunk16 (pkcs7Pad pt)).length = (pkcs7Pad pt).length := by
    conv_rhs => rw [← hflat]
    rw [flatten_length16 (fun b hb => (hblocks b hb).1)]
  have hn1 : 1 ≤ (chunk16 (pkcs7Pad pt)).length := by
    rw [pkcs7Pad_length] at h16
    omega
  unfold aesCbcDecrypt
  rw [if_neg]
  · unfold aesCbcEncrypt
    rw [chunk16_flatten (fun b hb => (henc b hb).1),
      cbcDecBlocks_cbcEncBlocks hrk _ iv hbl hiv hivb, hflat]
    exact pkcs7Unpad_pkcs7Pad
  · rw [hctlen, ← hnb]
    push_neg
    constructor
    · omega
    · omega

/-! ## Hex encoding -/

theorem hexVal_hexDigit : ∀ d < 16, hexVal (hexDigit d) = some d := by decide

theorem hexDigit_mem : ∀ d < 16, hexDigit d ∈ hexDigits := by decide

theorem hexDigits_ascii : ∀ c ∈ hexDigits, c.toNat < 128 := by decide

theorem hexDecodeL_hexEncode : ∀ {bs : List Nat}, Bytes bs → hexDecodeL (hexEncode bs) = bs := by
  intro bs
  induction bs with
  | nil => intro _; rfl
  | cons b rest ih =>
      intro h
      have hb : b < 256 := h b (by simp)
      show hexDecodeL (hexDigit (b / 16) :: hexDigit (b % 16) :: hexEncode rest) = b :: rest
      rw [hexDecodeL, hexVal_hexDigit _ (by omega), hexVal_hexDigit _ (by omega)]
      show (16 * (b / 16) + b % 16) :: hexDecodeL (hexEncode rest) = b :: rest
      rw [ih (fun x hx => h x (by simp [hx]))]
      congr 1
      omega

theorem hexEncode_length (bs : List Nat) : (hexEncode bs).length = 2 * bs.length := by
  induction bs with
  | nil => rfl
  | cons b rest ih =>
      show (hexDigit (b / 16) :: hexDigit (b % 16) :: hexEncode rest).length = _
      simp only [List.length_cons, ih]
      ring

theorem hexEncode_mem {bs : List Nat} (h : Bytes bs) : ∀ c ∈ hexEncode bs, c ∈ hexDigits := by
  induction bs with
  | nil => intro c hc; simp [hexEncode] at hc
  | cons b rest ih =>
      intro c hc
      have hb : b < 256 := h b (by simp)
      rw [show hexEncode (b :: rest) =
        hexDigit (b / 16) :: hexDigit (b % 16) :: hexEncode rest from rfl] at hc
      simp only [List.mem_cons] at hc
      rcases hc with rfl | rfl | hc
      · exact hexDigit_mem _ (by omega)
      · exact hexDigit_mem _ (by omega)
      · exact ih (fun x hx => h x (by simp [hx])) c hc

/-! ## Base64 encoding -/

theorem isB64Char_b64Digit : ∀ v < 64, isB64Char (b64Digit v) = true := by decide

theorem b64ValD_b64Digit : ∀ v < 64, b64ValD (b64Digit v) = v := by decide

theorem isB64Char_eqChar : isB64Char '=' = false := by decide

theorem b64Digit_not_pad : ∀ v < 64, (!(b64Digit v == '=')) = true := by decide

theorem b64DecodeQuads_filter_b64Encode :
    ∀ {bs : List Nat}, Bytes bs →
      b64DecodeQuads (((b64Encode bs).takeWhile (fun c => !(c == '='))).filter isB64Char) =
        bs := by
  intro bs
  induction bs using b64Encode.induct with
  | case1 a b c rest ih =>
      intro h
      have ha : a < 256 := h a (by simp)
      have hb : b < 256 := h b (by simp)
      have hc : c < 256 := h c (by simp)
      show b64DecodeQuads (((b64Digit (a / 4) :: b64Digit (a % 4 * 16 + b / 16) ::
        b64Digit (b % 16 * 4 + c / 64) :: b64Digit (c % 64) ::
          b64Encode rest).takeWhile (fun c => !(c == '='))).filter isB64Char) =
        a :: b :: c :: rest
      rw [List.takeWhile_cons_of_pos (p := fun c => !(c == '=')) (b64Digit_not_pad _ (by omega))]
      rw [List.takeWhile_cons_of_pos (p := fun c => !(c == '=')) (b64Digit_not_pad _ (by omega))]
      rw [List.takeWhile_cons_of_pos (p := fun c => !(c == '=')) (b64Digit_not_pad _ (by omega)),
        List.takeWhile_cons_of_pos (p := fun c => !(c == '=')) (b64Digit_not_pad _ (by omega))]
      rw [List.filter_cons_of_pos (isB64Char_b64Digit _ (by omega)),
        List.filter_cons_of_pos (isB64Char_b64Digit _ (by omega)),
        List.filter_cons_of_pos (isB64Char_b64Digit _ (by omega)),
        List.filter_cons_of_pos (isB64Char_b64Digit _ (by omega))]
      rw [b64DecodeQuads, b64ValD_b64Digit _ (by omega), b64ValD_b64Digit _ (by omega),
        b64ValD_b64Digit _ (by omega), b64ValD_b64Digit _ (by omega)]
      rw [ih (fun x hx => h x (by simp at hx ⊢; tauto))]
      refine List.cons_eq_cons.mpr ⟨by omega, List.cons_eq_cons.mpr ⟨by omega,
        List.cons_eq_cons.mpr ⟨by omega, rfl⟩⟩⟩
  | case2 a b =>
      intro h
      have ha : a < 256 := h a (by simp)
      have hb : b < 256 := h b (by simp)
      show b64DecodeQuads ((([b64Digit (a / 4), b64Digit (a % 4 * 16 + b / 16),
        b64Digit (b % 16 * 4), '=']).takeWhile (fun c => !(c == '='))).filter isB64Char) =
        [a, b]
      rw [List.takeWhile_cons_of_pos (p := fun c => !(c == '=')) (b64Digit_not_pad _ (by omega))]
      rw [List.takeWhile_cons_of_pos (p := fun c => !(c == '=')) (b64Digit_not_pad _ (by omega)),
        List.takeWhile_cons_of_pos (p := fun c => !(c == '=')) (b64Digit_not_pad _ (by omega)),
        List.takeWhile_cons_of_neg (p := fun c => !(c == '=')) (by decide)]
      rw [List.filter_cons_of_pos (isB64Char_b64Digit _ (by omega)),
        List.filter_cons_of_pos (isB64Char_b64Digit _ (by omega)),
        List.filter_cons_of_pos (isB64Char_b64Digit _ (by omega)), List.filter_nil]
      show [b64ValD (b64Digit (a / 4)) * 4 + b64ValD (b64Digit (a % 4 * 16 + b / 16)) / 16,
        b64ValD (b64Digit (a % 4 * 16 + b / 16)) % 16 * 16 +
          b64ValD (b64Digit (b % 16 * 4)) / 4] = [a, b]
      rw [b64ValD_b64Digit _ (by omega), b64ValD_b64Digit _ (by omega),
        b64ValD_b64Digit _ (by omega)]
      refine List.cons_eq_cons.mpr ⟨by omega, List.cons_eq_cons.mpr ⟨by omega, rfl⟩⟩
  | case3 a =>
      intro h
      have ha : a < 256 := h a (by simp)
      show b64DecodeQuads ((([b64Digit (a / 4), b64Digit (a % 4 * 16), '=',
        '=']).takeWhile (fun c => !(c == '='))).filter isB64Char) = [a]
      rw [List.takeWhile_cons_of_pos (p := fun c => !(c == '=')) (b64Digit_not_pad _ (by omega))]
      rw [List.takeWhile_cons_of_pos (p := fun c => !(c == '=')) (b64Digit_not_pad _ (by omega)),
        List.takeWhile_cons_of_neg (p := fun c => !(c == '=')) (by decide)]
      rw [List.filter_cons_of_pos (isB64Char_b64Digit _ (by omega)),
        List.filter_cons_of_pos (isB64Char_b64Digit _ (by omega)), List.filter_nil]
      show [b64ValD (b64Digit (a / 4)) * 4 + b64ValD (b64Digit (a % 4 * 16)) / 16] = [a]
      rw [b64ValD_b64Digit _ (by omega), b64ValD_b64Digit _ (by omega)]
      congr 1
      omega
  | case4 =>
      intro h
      rfl

theorem b64DecodeL_b64Encode {bs : List Nat} (h : Bytes bs) :
    b64DecodeL (b64Encode bs) = bs := b64DecodeQuads_filter_b64Encode h

/-! ## UTF-8: decoding inverts encoding on every valid string -/

theorem char_range (c : Char) :
    c.toNat < 0xd800 ∨ (0xe000 ≤ c.toNat ∧ c.toNat < 0x110000) := by
  have h := c.valid
  simp only [UInt32.isValidChar, Nat.isValidChar, Char.toNat] at h ⊢
  exact h

theorem utf8Go_one (c : Char) (rest : List Nat) (h1 : c.toNat < 0x80) :
    utf8Go none (utf8EncodeChar c ++ rest) = c :: utf8Go none rest := by
  have he : utf8EncodeChar c = [c.toNat] := by
    unfold utf8EncodeChar
    rw [if_pos h1]
  rw [he]
  show utf8Go none (c.toNat :: rest) = _
  have hc : utf8Classify c.toNat = .emit (Char.ofNat c.toNat) := by
    unfold utf8Classify
    rw [if_pos h1]
  simp only [utf8Go, hc, Char.ofNat_toNat]

theorem utf8Go_two (c : Char) (rest : List Nat) (h1 : 0x80 ≤ c.toNat)
    (h2 : c.toNat < 0x800) :
    utf8Go none (utf8EncodeChar c ++ rest) = c :: utf8Go none rest := by
  set n := c.toNat with hn
  have he : utf8EncodeChar c = [0xc0 + n / 64, 0x80 + n % 64] := by
    unfold utf8EncodeChar
    rw [← hn, if_neg (by omega), if_pos (by omega)]
  rw [he]
  show utf8Go none ((0xc0 + n / 64) :: (0x80 + n % 64) :: rest) = _
  have hc : utf8Classify (0xc0 + n / 64) = .start (0xc0 + n / 64 - 0xc0) 1 0x80 0xbf := by
    unfold utf8Classify
    rw [if_neg (by omega)]
    rw [if_neg (by omega), if_pos (by omega)]
  simp only [utf8Go, hc]
  rw [if_pos ⟨by omega, by omega⟩]
  simp only [reduceIte]
  have : (0xc0 + n / 64 - 0xc0) * 64 + (0x80 + n % 64 - 0x80) = n := by omega
  rw [this, hn, Char.ofNat_toNat]

theorem utf8Go_step2 {a lo hi b : Nat} (bs : List Nat) (hb : lo ≤ b ∧ b ≤ hi) :
    utf8Go (some (a, 2, lo, hi)) (b :: bs) =
      utf8Go (some (a * 64 + (b - 0x80), 1, 0x80, 0xbf)) bs := by
  simp only [utf8Go]
  rw [if_pos hb, if_neg (by omega : ¬ (2 : Nat) = 1)]

theorem utf8Go_step3 {a lo hi b : Nat} (bs : List Nat) (hb : lo ≤ b ∧ b ≤ hi) :
    utf8Go (some (a, 3, lo, hi)) (b :: bs) =
      utf8Go (some (a * 64 + (b - 0x80), 2, 0x80, 0xbf)) bs := by
  simp only [utf8Go]
  rw [if_pos hb, if_neg (by omega : ¬ (3 : Nat) = 1)]

theorem utf8Go_last {a lo hi b : Nat} (bs : List Nat) (hb : lo ≤ b ∧ b ≤ hi) :
    utf8Go (some (a, 1, lo, hi)) (b :: bs) =
      Char.ofNat (a * 64 + (b - 0x80)) :: utf8Go none bs := by
  simp only [utf8Go]
  rw [if_pos hb]
  simp only [reduceIte]

theorem utf8Go_lead {b : Nat} (bs : List Nat) {a m lo hi : Nat}
    (hc : utf8Classify b = .start a m lo hi) :
    utf8Go none (b :: bs) = utf8Go (some (a, m, lo, hi)) bs := by
  simp only [utf8Go, hc]

theorem utf8Go_three (c : Char) (rest : List Nat) (h1 : 0x800 ≤ c.toNat)
    (h2 : c.toNat < 0x10000) (hs : c.toNat < 0xd800 ∨ 0xe000 ≤ c.toNat) :
    utf8Go none (utf8EncodeChar c ++ rest) = c :: utf8Go none rest := by
  set n := c.toNat with hn
  have he : utf8EncodeChar c = [0xe0 + n / 4096, 0x80 + n / 64 % 64, 0x80 + n % 64] := by
    unfold utf8EncodeChar
    rw [← hn, if_neg (by omega), if_neg (by omega), if_pos (by omega)]
  rw [he]
  show utf8Go none ((0xe0 + n / 4096) :: (0x80 + n / 64 % 64) :: (0x80 + n % 64) :: rest) = _
  by_cases h0 : n / 4096 = 0
  · have hc : utf8Classify (0xe0 + n / 4096) = .start 0 2 0xa0 0xbf := by
      unfold utf8Classify
      rw [if_neg (by omega)]
      rw [if_neg (by omega)]
      rw [if_neg (by omega)]
      rw [if_pos (by omega)]
    rw [utf8Go_lead _ hc]
    rw [utf8Go_step2 _ ⟨by omega, by omega⟩, utf8Go_last _ ⟨by omega, by omega⟩]
    have hval : (0 * 64 + (0x80 + n / 64 % 64 - 0x80)) * 64 + (0x80 + n % 64 - 0x80) = n := by
      omega
    rw [hval, hn, Char.ofNat_toNat]
  · by_cases h13 : n / 4096 = 13
    · have hsur : n < 0xd800 := by
        rcases hs with h | h
        · exact h
        · omega
      have hc : utf8Classify (0xe0 + n / 4096) = .start 13 2 0x80 0x9f := by
        unfold utf8Classify
        rw [if_neg (by omega)]
        rw [if_neg (by omega)]
        rw [if_neg (by omega)]
        rw [if_neg (by omega)]
        rw [if_pos (by omega)]
      rw [utf8Go_lead _ hc]
      rw [utf8Go_step2 _ ⟨by omega, by omega⟩, utf8Go_last _ ⟨by omega, by omega⟩]
      have hval : (13 * 64 + (0x80 + n / 64 % 64 - 0x80)) * 64 + (0x80 + n % 64 - 0x80) = n := by
        omega
      rw [hval, hn, Char.ofNat_toNat]
    · have hc : utf8Classify (0xe0 + n / 4096) =
          .start (0xe0 + n / 4096 - 0xe0) 2 0x80 0xbf := by
        unfold utf8Classify
        rw [if_neg (by omega)]
        rw [if_neg (by omega)]
        rw [if_neg (by omega)]
        rw [if_neg (by omega)]
        rw [if_neg (by omega)]
        rw [if_pos (by omega)]
      rw [utf8Go_lead _ hc]
      rw [utf8Go_step2 _ ⟨by omega, by omega⟩, utf8Go_last _ ⟨by omega, by omega⟩]
      have hval : ((0xe0 + n / 4096 - 0xe0) * 64 + (0x80 + n / 64 % 64 - 0x80)) * 64 +
          (0x80 + n % 64 - 0x80) = n := by
        omega
      rw [hval, hn, Char.ofNat_toNat]

theorem utf8Go_four (c : Char) (rest : List Nat) (h1 : 0x10000 ≤ c.toNat)
    (h2 : c.toNat < 0x110000) :
    utf8Go none (utf8EncodeChar c ++ rest) = c :: utf8Go none rest := by
  set n := c.toNat with hn
  have he : utf8EncodeChar c =
      [0xf0 + n / 262144, 0x80 + n / 4096 % 64, 0x80 + n / 64 % 64, 0x80 + n % 64] := by
    unfold utf8EncodeChar
    rw [← hn, if_neg (by omega), if_neg (by omega), if_neg (by omega)]
  rw [he]
  show utf8Go none ((0xf0 + n / 262144) :: (0x80 + n / 4096 % 64) :: (0x80 + n / 64 % 64) ::
    (0x80 + n % 64) :: rest) = _
  by_cases h0 : n / 262144 = 0
  · have hc : utf8Classify (0xf0 + n / 262144) = .start 0 3 0x90 0xbf := by
      unfold utf8Classify
      rw [if_neg (by omega)]
      rw [if_neg (by omega)]
      rw [if_neg (by omega)]
      rw [if_neg (by omega)]
      rw [if_neg (by omega)]
      rw [if_neg (by omega)]
      rw [if_pos (by omega)]
    rw [utf8Go_lead _ hc]
    rw [utf8Go_step3 _ ⟨by omega, by omega⟩, utf8Go_step2 _ ⟨by omega, by omega⟩,
      utf8Go_last _ ⟨by omega, by omega⟩]
    have hval : ((0 * 64 + (0x80 + n / 4096 % 64 - 0x80)) * 64 +
        (0x80 + n / 64 % 64 - 0x80)) * 64 + (0x80 + n % 64 - 0x80) = n := by
      omega
    rw [hval, hn, Char.ofNat_toNat]
  · by_cases h4 : n / 262144 = 4
    · have hc : utf8Classify (0xf0 + n / 262144) = .start 4 3 0x80 0x8f := by
        unfold utf8Classify
        rw [if_neg (by omega)]
        rw [if_neg (by omega)]
        rw [if_neg (by omega)]
        rw [if_neg (by omega)]
        rw [if_neg (by omega)]
        rw [if_neg (by omega)]
        rw [if_neg (by omega)]
        rw [if_neg (by omega)]
        rw [if_pos (by omega)]
      rw [utf8Go_lead _ hc]
      rw [utf8Go_step3 _ ⟨by omega, by omega⟩, utf8Go_step2 _ ⟨by omega, by omega⟩,
        utf8Go_last _ ⟨by omega, by omega⟩]
      have hval : ((4 * 64 + (0x80 + n / 4096 % 64 - 0x80)) * 64 +
          (0x80 + n / 64 % 64 - 0x80)) * 64 + (0x80 + n % 64 - 0x80) = n := by
        omega
      rw [hval, hn, Char.ofNat_toNat]
    · have hc : utf8Classify (0xf0 + n / 262144) =
          .start (0xf0 + n / 262144 - 0xf0) 3 0x80 0xbf := by
        unfold utf8Classify
        rw [if_neg (by omega)]
        rw [if_neg (by omega)]
        rw [if_neg (by omega)]
        rw [if_neg (by omega)]
        rw [if_neg (by omega)]
        rw [if_neg (by omega)]
        rw [if_neg (by omega)]
        rw [if_pos (by omega)]
      rw [utf8Go_lead _ hc]
      rw [utf8Go_step3 _ ⟨by omega, by omega⟩, utf8Go_step2 _ ⟨by omega, by omega⟩,
        utf8Go_last _ ⟨by omega, by omega⟩]
      have hval : (((0xf0 + n / 262144 - 0xf0) * 64 + (0x80 + n / 4096 % 64 - 0x80)) * 64 +
          (0x80 + n / 64 % 64 - 0x80)) * 64 + (0x80 + n % 64 - 0x80) = n := by
        omega
      rw [hval, hn, Char.ofNat_toNat]

theorem utf8Go_encodeChar (c : Char) (rest : List Nat) :
    utf8Go none (utf8EncodeChar c ++ rest) = c :: utf8Go none rest := by
  have hv := char_range c
  rcases Nat.lt_or_ge c.toNat 0x80 with h | h
  · exact utf8Go_one c rest h
  rcases Nat.lt_or_ge c.toNat 0x800 with h2 | h2
  · exact utf8Go_two c rest h h2
  rcases Nat.lt_or_ge c.toNat 0x10000 with h3 | h3
  · refine utf8Go_three c rest h2 h3 ?_
    rcases hv with hv | hv
    · exact Or.inl hv
    · exact Or.inr hv.1
  · refine utf8Go_four c rest h3 ?_
    rcases hv with hv | hv
    · omega
    · exact hv.2

theorem utf8DecodeR_utf8Encode (cs : List Char) : utf8DecodeR (utf8Encode cs) = cs := by
  induction cs with
  | nil => rfl
  | cons c rest ih =>
      show utf8Go none (utf8EncodeChar c ++ utf8Encode rest) = _
      rw [utf8Go_encodeChar]
      exact congrArg (fun l => c :: l) ih

theorem utf8EncodeChar_bytes (c : Char) : Bytes (utf8EncodeChar c) := by
  have hv := char_range c
  intro x hx
  unfold utf8EncodeChar at hx
  set n := c.toNat with hn
  by_cases h1 : n < 0x80
  · rw [if_pos h1] at hx
    simp only [List.mem_singleton] at hx
    omega
  · rw [if_neg h1] at hx
    by_cases h2 : n < 0x800
    · rw [if_pos h2] at hx
      simp only [List.mem_cons, List.not_mem_nil, or_false] at hx
      rcases hx with rfl | rfl <;> omega
    · rw [if_neg h2] at hx
      by_cases h3 : n < 0x10000
      · rw [if_pos h3] at hx
        simp only [List.mem_cons, List.not_mem_nil, or_false] at hx
        rcases hx with rfl | rfl | rfl <;> omega
      · rw [if_neg h3] at hx
        simp only [List.mem_cons, List.not_mem_nil, or_false] at hx
        have hub : n < 0x110000 := by
          rw [hn]
          rcases hv with h | h
          · omega
          · exact h.2
        rcases hx with rfl | rfl | rfl | rfl <;> omega

theorem utf8Encode_bytes (cs : List Char) : Bytes (utf8Encode cs) := by
  intro x hx
  unfold utf8Encode at hx
  rw [List.mem_flatMap] at hx
  obtain ⟨c, _, hxc⟩ := hx
  exact utf8EncodeChar_bytes c x hxc

theorem utf8Encode_ascii {cs : List Char} (h : ∀ c ∈ cs, c.toNat < 128) :
    utf8Encode cs = cs.map Char.toNat := by
  induction cs with
  | nil => rfl
  | cons c rest ih =>
      have hc : c.toNat < 128 := h c (by simp)
      show utf8EncodeChar c ++ utf8Encode rest = _
      rw [show utf8EncodeChar c = [c.toNat] by unfold utf8EncodeChar; rw [if_pos hc]]
      rw [ih (fun x hx => h x (by simp [hx]))]
      rfl

theorem utf8Encode_ascii_length {cs : List Char} (h : ∀ c ∈ cs, c.toNat < 128) :
    (utf8Encode cs).length = cs.length := by
  rw [utf8Encode_ascii h]
  simp

/-! ## SHA-512: shape of the digest -/

theorem beBytes_length (w n : Nat) : (beBytes w n).length = w := by
  induction w generalizing n with
  | zero => rfl
  | succ w ih =>
      show (beBytes w (n / 256) ++ [n % 256]).length = w + 1
      simp [ih]

theorem beBytes_bytes (w n : Nat) : Bytes (beBytes w n) := by
  induction w generalizing n with
  | zero => intro x hx; simp [beBytes] at hx
  | succ w ih =>
      intro x hx
      show x < 256
      simp only [beBytes, List.mem_append, List.mem_singleton] at hx
      rcases hx with hx | rfl
      · exact ih (n / 256) x hx
      · omega

theorem shaRound_length (s : List Nat) (k w : Nat) : (shaRound s k w).length = s.length := by
  unfold shaRound
  split
  · rfl
  · rfl

theorem shaRounds_length :
    ∀ (ks ws s : List Nat), (shaRounds ks ws s).length = s.length := by
  intro ks
  induction ks with
  | nil => intro ws s; cases ws <;> rfl
  | cons k ks ih =>
      intro ws s
      cases ws with
      | nil => rfl
      | cons w ws =>
          show (shaRounds ks ws (shaRound s k w)).length = s.length
          rw [ih, shaRound_length]

theorem shaCompress_length (h b : List Nat) : (shaCompress h b).length = h.length := by
  unfold shaCompress
  simp [shaRounds_length]

theorem shaBlocks_length :
    ∀ (bs : List (List Nat)) (h : List Nat), (shaBlocks h bs).length = h.length := by
  intro bs
  induction bs with
  | nil => intro h; rfl
  | cons b rest ih =>
      intro h
      show (shaBlocks (shaCompress h b) rest).length = h.length
      rw [ih, shaCompress_length]

theorem flatMap_beBytes8_length (ws : List Nat) :
    (ws.flatMap (beBytes 8)).length = 8 * ws.length := by
  induction ws with
  | nil => rfl
  | cons w rest ih =>
      show (beBytes 8 w ++ rest.flatMap (beBytes 8)).length = _
      simp only [List.length_append, beBytes_length, ih, List.length_cons]
      ring

theorem flatMap_beBytes8_bytes (ws : List Nat) : Bytes (ws.flatMap (beBytes 8)) := by
  intro x hx
  rw [List.mem_flatMap] at hx
  obtain ⟨w, _, hxw⟩ := hx
  exact beBytes_bytes 8 w x hxw

theorem sha512H0_length : sha512H0.length = 8 := by rfl

theorem sha512Bytes_length (m : List Nat) : (sha512Bytes m).length = 64 := by
  unfold sha512Bytes
  rw [flatMap_beBytes8_length, shaBlocks_length, sha512H0_length]

theorem sha512Bytes_bytes (m : List Nat) : Bytes (sha512Bytes m) :=
  flatMap_beBytes8_bytes _

theorem sha512Hex_length (s : String) : (sha512Hex s).length = 128 := by
  unfold sha512Hex
  rw [hexEncode_length, sha512Bytes_length]

theorem sha512Hex_mem (s : String) : ∀ c ∈ sha512Hex s, c ∈ hexDigits :=
  hexEncode_mem (sha512Bytes_bytes _)

/-! ## The derived key and IV -/

theorem keyChars_length (sk : String) : (keyChars sk).length = 32 := by
  unfold keyChars
  rw [List.length_take, sha512Hex_length]
  rfl

theorem ivChars_length (siv : String) : (ivChars siv).length = 16 := by
  unfold ivChars
  rw [List.length_take, sha512Hex_length]
  rfl

theorem keyChars_mem (sk : String) : ∀ c ∈ keyChars sk, c ∈ hexDigits :=
  fun c hc => sha512Hex_mem sk c (List.mem_of_mem_take hc)

theorem ivChars_mem (siv : String) : ∀ c ∈ ivChars siv, c ∈ hexDigits :=
  fun c hc => sha512Hex_mem siv c (List.mem_of_mem_take hc)

theorem keyChars_ascii (sk : String) : ∀ c ∈ keyChars sk, c.toNat < 128 :=
  fun c hc => hexDigits_ascii c (keyChars_mem sk c hc)

theorem ivChars_ascii (siv : String) : ∀ c ∈ ivChars siv, c.toNat < 128 :=
  fun c hc => hexDigits_ascii c (ivChars_mem siv c hc)

theorem keyBytes_length (sk : String) : (utf8Encode (keyChars sk)).length = 32 := by
  rw [utf8Encode_ascii_length (keyChars_ascii sk), keyChars_length]

theorem ivBytes_length (siv : String) : (utf8Encode (ivChars siv)).length = 16 := by
  rw [utf8Encode_ascii_length (ivChars_ascii siv), ivChars_length]

/-! ## The full encrypt/decrypt pipeline -/

theorem aesCbcEncrypt_bytes {key iv pt : List Nat} (hkey : Bytes key)
    (hiv : iv.length = 16) (hivb : Bytes iv) (hpt : Bytes pt) :
    Bytes (aesCbcEncrypt key iv pt) := by
  have hrk := roundKeys_ok hkey
  have hpadlen : (pkcs7Pad pt).length % 16 = 0 := by
    rw [pkcs7Pad_length]; omega
  obtain ⟨hblocks, _⟩ := chunk16_spec hpadlen
  have hbl : ∀ b ∈ chunk16 (pkcs7Pad pt), b.length = 16 ∧ Bytes b :=
    fun b hb => ⟨(hblocks b hb).1, (hblocks b hb).2 (pkcs7Pad_bytes hpt)⟩
  have henc := cbcEncBlocks_ok hrk _ iv hbl hiv hivb
  exact bytes_flatten (fun b hb => (henc b hb).2)

theorem string_mk_data (s : String) : String.mk s.data = s := by
  cases s
  rfl

theorem encryptCore_some (key iv : List Char) (s : String) :
    encryptCore key iv (some s) = .ok (String.mk (b64Encode (utf8Encode (hexEncode
      (aesCbcEncrypt (utf8Encode key) (utf8Encode iv) (utf8Encode s.data)))))) := rfl

theorem utf16Length_of_bmp :
    ∀ {cs : List Char}, (∀ c ∈ cs, c.toNat < 0x10000) → utf16Length cs = cs.length := by
  intro cs
  induction cs with
  | nil => intro _; rfl
  | cons c rest ih =>
      intro h
      unfold utf16Length
      rw [List.map_cons, List.sum_cons, if_pos (h c (by simp))]
      have h2 := ih (fun x hx => h x (by simp [hx]))
      unfold utf16Length at h2
      rw [h2, List.length_cons]
      omega

theorem decryptCore_encryptCore {key iv : List Char}
    (hivlen : (utf8Encode iv).length = 16) (P : String) {env : String}
    (henv : encryptCore key iv (some P) = .ok env) :
    decryptCore key iv (some env) = .ok P := by
  rw [encryptCore_some] at henv
  injection henv with henv2
  subst henv2
  set ct := aesCbcEncrypt (utf8Encode key) (utf8Encode iv) (utf8Encode P.data) with hct
  have hctb : Bytes ct := aesCbcEncrypt_bytes (utf8Encode_bytes key) hivlen
    (utf8Encode_bytes iv) (utf8Encode_bytes P.data)
  have h1 : b64DecodeL (b64Encode (utf8Encode (hexEncode ct))) =
      utf8Encode (hexEncode ct) := b64DecodeL_b64Encode (utf8Encode_bytes _)
  have h3 : aesCbcDecrypt (utf8Encode key) (utf8Encode iv) (hexDecodeL (hexEncode ct)) =
      some (utf8Encode P.data) := by
    rw [hexDecodeL_hexEncode hctb, hct]
    exact aesCbcDecrypt_aesCbcEncrypt (utf8Encode_bytes key) hivlen (utf8Encode_bytes iv)
      (utf8Encode_bytes P.data)
  have h4 : utf16Length (hexEncode ct) = (hexEncode ct).length :=
    utf16Length_of_bmp (fun c hc =>
      lt_trans (hexDigits_ascii c (hexEncode_mem hctb c hc)) (by norm_num))
  simp only [decryptCore]
  rw [h1, utf8DecodeR_utf8Encode, h4, hexEncode_length, if_pos (by omega), h3]
  show Except.ok (String.mk (utf8DecodeR (utf8Encode P.data))) = Except.ok P
  rw [utf8DecodeR_utf8Encode, string_mk_data]

theorem decryptData_encryptData (sk siv P : String) :
    ∃ env, encryptData sk siv (some P) = .ok env ∧ decryptData sk siv (some env) = .ok P := by
  refine ⟨_, rfl, ?_⟩
  exact decryptCore_encryptCore (ivBytes_length siv) P rfl

/-! ## The request-handling process -/

theorem handleCall_state (s : ProcState) (c : Call) : (handleCall s c).2 = s := by
  cases c <;> rfl

theorem runCalls_state : ∀ (cs : List Call) (s : ProcState), (runCalls s cs).2 = s := by
  intro cs
  induction cs with
  | nil => intro s; rfl
  | cons c rest ih =>
      intro s
      show (runCalls (handleCall s c).2 rest).2 = s
      rw [handleCall_state, ih]

theorem runCalls_append (s : ProcState) (cs ds : List Call) :
    runCalls s (cs ++ ds) =
      ((runCalls s cs).1 ++ (runCalls (runCalls s cs).2 ds).1,
        (runCalls (runCalls s cs).2 ds).2) := by
  induction cs generalizing s with
  | nil => rfl
  | cons c rest ih =>
      simp only [List.cons_append, runCalls, List.append_eq, ih, List.nil_append]

theorem runCalls_last_encrypt (sk siv : String) (cs : List Call) (d : Option String) :
    (runCalls (initState sk siv) (cs ++ [.encrypt d])).1.getLast? =
      some (encryptData sk siv d) := by
  rw [runCalls_append, runCalls_state]
  rw [List.getLast?_append]
  rfl

/-! ## When exactly decryption fails -/

theorem decryptCore_error_iff (key iv : List Char) (e : String) :
    (∃ err, decryptCore key iv (some e) = .error err) ↔
      (utf16Length (utf8DecodeR (b64DecodeL e.data)) % 2 = 1 ∨
        hexDecodeL (utf8DecodeR (b64DecodeL e.data)) = [] ∨
        (hexDecodeL (utf8DecodeR (b64DecodeL e.data))).length % 16 ≠ 0 ∨
        pkcs7Unpad ((cbcDecBlocks (roundKeys (utf8Encode key)) (utf8Encode iv)
          (chunk16 (hexDecodeL (utf8DecodeR (b64DecodeL e.data))))).flatten) = none) := by
  simp only [decryptCore]
  set ht := utf8DecodeR (b64DecodeL e.data) with hht
  by_cases hodd : utf16Length ht % 2 = 0
  · rw [if_pos hodd]
    unfold aesCbcDecrypt
    by_cases hz : (hexDecodeL ht).length = 0 ∨ ¬ (hexDecodeL ht).length % 16 = 0
    · rw [if_pos hz]
      constructor
      · intro _
        rcases hz with hz | hz
        · exact Or.inr (Or.inl (List.length_eq_zero.mp hz))
        · exact Or.inr (Or.inr (Or.inl hz))
      · intro _
        exact ⟨.badDecrypt, rfl⟩
    · rw [if_neg hz]
      push_neg at hz
      constructor
      · intro ⟨err, herr⟩
        by_cases hu : pkcs7Unpad ((cbcDecBlocks (roundKeys (utf8Encode key)) (utf8Encode iv)
            (chunk16 (hexDecodeL ht))).flatten) = none
        · exact Or.inr (Or.inr (Or.inr hu))
        · exfalso
          obtain ⟨pt, hpt⟩ := Option.ne_none_iff_exists.mp hu
          rw [← hpt] at herr
          simp at herr
      · intro h
        rcases h with h | h | h | h
        · exact absurd h (by omega)
        · exact absurd (by rw [h]; rfl : (hexDecodeL ht).length = 0) hz.1
        · exact absurd hz.2 h
        · rw [h]
          exact ⟨.badDecrypt, rfl⟩
  · rw [if_neg hodd]
    constructor
    · intro _
      exact Or.inl (by omega)
    · intro _
      exact ⟨.invalidArg, rfl⟩

/-! ## Remaining support lemmas for the claims -/

theorem b64Encode_length :
    ∀ (bs : List Nat), (b64Encode bs).length = 4 * ((bs.length + 2) / 3) := by
  intro bs
  induction bs using b64Encode.induct with
  | case1 a b c rest ih =>
      show (b64Encode (a :: b :: c :: rest)).length = _
      rw [b64Encode]
      simp only [List.length_cons, ih]
      omega
  | case2 a b => norm_num [b64Encode]
  | case3 a => norm_num [b64Encode]
  | case4 => rfl

theorem string_mk_ne_of_length {l1 l2 : List Char} (h : l1.length ≠ l2.length) :
    String.mk l1 ≠ String.mk l2 := by
  intro he
  apply h
  have h2 : l1 = l2 := congrArg String.data he
  rw [h2]

theorem decryptCore_empty (key iv : List Char) :
    decryptCore key iv (some "") = .error .badDecrypt := rfl

theorem jsFalsy_false_iff (o : Option String) :
    jsFalsy o = false ↔ o ≠ none ∧ o ≠ some "" := by
  cases o with
  | none => simp [jsFalsy]
  | some s =>
      simp only [jsFalsy, ne_eq, reduceCtorEq, not_false_eq_true, true_and,
        beq_eq_false_iff_ne, Option.some.injEq]

theorem envelope_hex_length (sk siv P : String) :
    (hexEncode (aesCbcEncrypt (utf8Encode (keyChars sk)) (utf8Encode (ivChars siv))
      (utf8Encode P.data))).length = 32 * ((utf8Encode P.data).length / 16 + 1) := by
  rw [hexEncode_length, aesCbcEncrypt_length (utf8Encode_bytes _) (ivBytes_length siv)
    (utf8Encode_bytes _) (utf8Encode_bytes _)]
  ring

/-! # Claim theorems -/

/-- C1: for every plaintext string (empty, Unicode, multi-byte included), under a
valid configuration (non-empty secrets, method aes-256-cbc), decrypting the
encryption of the plaintext returns the plaintext exactly. -/
theorem C1_roundtrip (sk siv P : String) (hsk : sk ≠ "") (hsiv : siv ≠ "") :
    ∃ env, encryptData sk siv (some P) = .ok env ∧ decryptData sk siv (some env) = .ok P :=
  decryptData_encryptData sk siv P

/-- Witness for C1 at the tutorial fixture secrets and a concrete plaintext. -/
theorem C1_roundtrip_witness :
    ∃ env, encryptData "secretKey" "secretIV" (some "Hello World") = .ok env ∧
      decryptData "secretKey" "secretIV" (some env) = .ok "Hello World" :=
  C1_roundtrip "secretKey" "secretIV" "Hello World" (by decide) (by decide)

/-- C2: key derivation takes the SHA-512 digest of each secret rendered as
lowercase hex, truncated to exactly 32 characters for the key and 16 for the
IV; those characters are used as ASCII bytes (32 and 16 bytes below 128), and
the derivation is a pure function of the secrets alone. -/
theorem C2_key_derivation (sk siv : String) :
    keyChars sk = (sha512Hex sk).take 32 ∧
    ivChars siv = (sha512Hex siv).take 16 ∧
    (keyChars sk).length = 32 ∧
    (ivChars siv).length = 16 ∧
    (∀ c ∈ keyChars sk, c ∈ hexDigits) ∧
    (∀ c ∈ ivChars siv, c ∈ hexDigits) ∧
    utf8Encode (keyChars sk) = (keyChars sk).map Char.toNat ∧
    (utf8Encode (keyChars sk)).length = 32 ∧
    (∀ x ∈ utf8Encode (keyChars sk), x < 128) ∧
    utf8Encode (ivChars siv) = (ivChars siv).map Char.toNat ∧
    (utf8Encode (ivChars siv)).length = 16 ∧
    (∀ x ∈ utf8Encode (ivChars siv), x < 128) ∧
    (∀ sk2 siv2 : String, sk2 = sk → siv2 = siv →
      keyChars sk2 = keyChars sk ∧ ivChars siv2 = ivChars siv) := by
  refine ⟨rfl, rfl, keyChars_length sk, ivChars_length siv, keyChars_mem sk,
    ivChars_mem siv, utf8Encode_ascii (keyChars_ascii sk), keyBytes_length sk, ?_,
    utf8Encode_ascii (ivChars_ascii siv), ivBytes_length siv, ?_,
    fun sk2 siv2 h1 h2 => ⟨by rw [h1], by rw [h2]⟩⟩
  · intro x hx
    rw [utf8Encode_ascii (keyChars_ascii sk), List.mem_map] at hx
    obtain ⟨c, hc, rfl⟩ := hx
    exact keyChars_ascii sk c hc
  · intro x hx
    rw [utf8Encode_ascii (ivChars_ascii siv), List.mem_map] at hx
    obtain ⟨c, hc, rfl⟩ := hx
    exact ivChars_ascii siv c hc

/-- C3: the envelope is the Base64 encoding of the ASCII text of the lowercase
hex rendering of the raw CBC ciphertext — and never the Base64 of the raw
ciphertext bytes themselves (the two strings always differ in length). -/
theorem C3_envelope_encoding (sk siv P : String) :
    encryptData sk siv (some P) = .ok (String.mk (b64Encode (utf8Encode (hexEncode
      (aesCbcEncrypt (utf8Encode (keyChars sk)) (utf8Encode (ivChars siv))
        (utf8Encode P.data)))))) ∧
    String.mk (b64Encode (utf8Encode (hexEncode
      (aesCbcEncrypt (utf8Encode (keyChars sk)) (utf8Encode (ivChars siv))
        (utf8Encode P.data))))) ≠
      String.mk (b64Encode (aesCbcEncrypt (utf8Encode (keyChars sk))
        (utf8Encode (ivChars siv)) (utf8Encode P.data))) := by
  constructor
  · rfl
  · apply string_mk_ne_of_length
    have hctb : Bytes (aesCbcEncrypt (utf8Encode (keyChars sk)) (utf8Encode (ivChars siv))
        (utf8Encode P.data)) :=
      aesCbcEncrypt_bytes (utf8Encode_bytes _) (ivBytes_length siv) (utf8Encode_bytes _)
        (utf8Encode_bytes _)
    have hasc : ∀ c ∈ hexEncode (aesCbcEncrypt (utf8Encode (keyChars sk))
        (utf8Encode (ivChars siv)) (utf8Encode P.data)), c.toNat < 128 :=
      fun c hc => hexDigits_ascii c (hexEncode_mem hctb c hc)
    rw [b64Encode_length, b64Encode_length, utf8Encode_ascii_length hasc, hexEncode_length,
      aesCbcEncrypt_length (utf8Encode_bytes _) (ivBytes_length siv) (utf8Encode_bytes _)
        (utf8Encode_bytes _)]
    omega

/-- C6: loading the encryption module succeeds exactly when all three
configuration values are present and non-empty; a missing or empty value makes
the module-level guard throw, so no handler can be served. -/
theorem C6_config_guard (cfg : Config) :
    (∃ d, initEncryption cfg = .ok d) ↔
      ((cfg.secret_key ≠ none ∧ cfg.secret_key ≠ some "") ∧
        (cfg.secret_iv ≠ none ∧ cfg.secret_iv ≠ some "") ∧
        (cfg.ecnryption_method ≠ none ∧ cfg.ecnryption_method ≠ some "")) := by
  constructor
  · intro ⟨d, hd⟩
    unfold initEncryption at hd
    by_cases hb : (jsFalsy cfg.secret_key || jsFalsy cfg.secret_iv ||
        jsFalsy cfg.ecnryption_method) = true
    · rw [if_pos hb] at hd
      simp at hd
    · rw [Bool.or_eq_true, Bool.or_eq_true] at hb
      push_neg at hb
      obtain ⟨⟨h1, h2⟩, h3⟩ := hb
      exact ⟨(jsFalsy_false_iff _).mp (Bool.eq_false_iff.mpr h1),
        (jsFalsy_false_iff _).mp (Bool.eq_false_iff.mpr h2),
        (jsFalsy_false_iff _).mp (Bool.eq_false_iff.mpr h3)⟩
  · intro ⟨h1, h2, h3⟩
    unfold initEncryption
    rw [if_neg (by
      rw [(jsFalsy_false_iff _).mpr h1, (jsFalsy_false_iff _).mpr h2,
        (jsFalsy_false_iff _).mpr h3]
      simp)]
    exact ⟨_, rfl⟩

/-- C7: encryption is deterministic — the reply to an encrypt request depends
only on the configured key material and the plaintext, so the same request
after any two call histories yields the same envelope. -/
theorem C7_deterministic_encrypt (sk siv : String) (cs cs2 : List Call)
    (d : Option String) :
    (runCalls (initState sk siv) (cs ++ [.encrypt d])).1.getLast? =
      (runCalls (initState sk siv) (cs2 ++ [.encrypt d])).1.getLast? ∧
    (runCalls (initState sk siv) (cs ++ [.encrypt d])).1.getLast? =
      some (encryptData sk siv d) := by
  rw [runCalls_last_encrypt, runCalls_last_encrypt]
  exact ⟨rfl, rfl⟩

/-- C9: the derived key and IV are process-wide immutable state — no request
changes the process state, so every call in any sequence observes the pair
computed once at initialization. -/
theorem C9_immutable_key_state (sk siv : String) (cs : List Call) :
    (runCalls (initState sk siv) cs).2 = initState sk siv ∧
    (∀ (s : ProcState) (c : Call), (handleCall s c).2 = s) ∧
    initState sk siv = ⟨keyChars sk, ivChars siv⟩ :=
  ⟨runCalls_state cs _, handleCall_state, rfl⟩

/-- C10: the hex text inside the envelope always has `32 * (n / 16 + 1)`
characters for a plaintext of `n` UTF-8 bytes (so ciphertext length depends
only on the byte length); in particular encrypting the empty string yields the
Base64 of a 32-character hex string, and decrypting it returns the empty
string. -/
theorem C10_ciphertext_length (sk siv P : String) :
    (hexEncode (aesCbcEncrypt (utf8Encode (keyChars sk)) (utf8Encode (ivChars siv))
      (utf8Encode P.data))).length = 32 * ((utf8Encode P.data).length / 16 + 1) ∧
    (∃ h : List Char, encryptData sk siv (some "") = .ok (String.mk (b64Encode
        (utf8Encode h))) ∧
      h.length = 32 ∧ (∀ c ∈ h, c ∈ hexDigits) ∧
      decryptData sk siv (some (String.mk (b64Encode (utf8Encode h)))) = .ok "") := by
  constructor
  · exact envelope_hex_length sk siv P
  · refine ⟨hexEncode (aesCbcEncrypt (utf8Encode (keyChars sk)) (utf8Encode (ivChars siv))
      (utf8Encode (String.data ""))), rfl, ?_, ?_, ?_⟩
    · have := envelope_hex_length sk siv ""
      rw [this]
      rfl
    · exact hexEncode_mem (aesCbcEncrypt_bytes (utf8Encode_bytes _) (ivBytes_length siv)
        (utf8Encode_bytes _) (utf8Encode_bytes _))
    · exact decryptCore_encryptCore (ivBytes_length siv) "" rfl

/-- C4 (amended): decryption fails exactly when the recovered hex text has an
odd length in UTF-16 code units, or the hex-decodable prefix is empty or not a
whole number of 16-byte blocks, or the CBC padding check fails after
decryption (the typical outcome under a mismatched key, IV or method).  Base64
validity is not among the conditions: the best-effort decoder skips invalid
characters and stops at the first padding character. -/
theorem C4_decrypt_error_conditions (sk siv e : String) :
    (∃ err, decryptData sk siv (some e) = .error err) ↔
      (utf16Length (utf8DecodeR (b64DecodeL e.data)) % 2 = 1 ∨
        hexDecodeL (utf8DecodeR (b64DecodeL e.data)) = [] ∨
        (hexDecodeL (utf8DecodeR (b64DecodeL e.data))).length % 16 ≠ 0 ∨
        pkcs7Unpad ((cbcDecBlocks (roundKeys (utf8Encode (keyChars sk)))
          (utf8Encode (ivChars siv))
          (chunk16 (hexDecodeL (utf8DecodeR (b64DecodeL e.data))))).flatten) = none) :=
  decryptCore_error_iff (keyChars sk) (ivChars siv) e

/-- C4 counterexample: an envelope that is not valid Base64 (a leading `!`)
still decrypts successfully to the original plaintext, because the invalid
character is skipped — refuting that decryption fails on invalid Base64. -/
theorem C4_invalid_base64_decrypts :
    validB64 ("!NTBmYjliODIyMzQwZWYwNTQxNjQzMzhmZTE5NTllMzk=".data) = false ∧
    validB64 ("NTBmYjliODIyMzQwZWYwNTQxNjQzMzhmZTE5NTllMzk=".data) = true ∧
    decryptData "secretKey" "secretIV"
      (some "!NTBmYjliODIyMzQwZWYwNTQxNjQzMzhmZTE5NTllMzk=") = .ok "Hello World" := by
  refine ⟨by decide, by decide, ?_⟩
  rfl

/-- C5 (amended): both handlers terminate on every input; an empty string is
not rejected — `encryptData` encrypts it successfully and `decryptData` fails
with a decryption error — while a missing (`undefined`) field makes each
function throw a `TypeError` out of the handler instead of returning a
failure kind. -/
theorem C5_input_tolerance (sk siv : String) :
    (encryptData sk siv (some "")).isOk = true ∧
    decryptData sk siv (some "") = .error .badDecrypt ∧
    encryptData sk siv none = .error .typeError ∧
    decryptData sk siv none = .error .typeError :=
  ⟨rfl, decryptCore_empty _ _, rfl, rfl⟩

/-- C5 counterexample: with the fixture secrets, the empty string is encrypted
successfully (no `EncryptionError`), and a missing field throws a `TypeError`
rather than returning a failure kind — refuting the claim as stated. -/
theorem C5_missing_input_not_failure_kind :
    (encryptData "secretKey" "secretIV" (some "")).isOk = true ∧
    encryptData "secretKey" "secretIV" none = .error .typeError ∧
    decryptData "secretKey" "secretIV" none = .error .typeError :=
  ⟨rfl, rfl, rfl⟩

/-- C8 (amended): a single Base64-character substitution is not always
detected: one corrupting the final blocks fails with a decryption error, but
one affecting only leading ciphertext blocks decrypts successfully (to
garbage). -/
theorem C8_tamper_partial :
    decryptData "secretKey" "secretIV"
      (some "MDliMjRmZmViZThhODlkYjg5NTQ3NDU3ZWU5OTQ4M2I5MDU1ZTM1MmRjYTEzYTA1YjE4ZWFhOTZjNjAzAzhmZQ==") =
      .error .badDecrypt ∧
    (decryptData "secretKey" "secretIV"
      (some "NDliMjRmZmViZThhODlkYjg5NTQ3NDU3ZWU5OTQ4M2I5MDU1ZTM1MmRjYTEzYTA1YjE4ZWFhOTZjNjAzMzhmZQ==")).isOk =
      true := by
  constructor
  · rfl
  · rfl

/-- C8 counterexample: changing the first Base64 character of a valid envelope
from `M` to `N` (both alphabet characters) yields an envelope that decrypts
successfully instead of failing — refuting the universal tamper-detection
claim. -/
theorem C8_tamper_undetected :
    encryptData "secretKey" "secretIV" (some "aaaaaaaaaaaaaaaaaaaaaaaaaaaaaaa") =
      .ok "MDliMjRmZmViZThhODlkYjg5NTQ3NDU3ZWU5OTQ4M2I5MDU1ZTM1MmRjYTEzYTA1YjE4ZWFhOTZjNjAzMzhmZQ==" ∧
    "NDliMjRmZmViZThhODlkYjg5NTQ3NDU3ZWU5OTQ4M2I5MDU1ZTM1MmRjYTEzYTA1YjE4ZWFhOTZjNjAzMzhmZQ==".data.tail =
      "MDliMjRmZmViZThhODlkYjg5NTQ3NDU3ZWU5OTQ4M2I5MDU1ZTM1MmRjYTEzYTA1YjE4ZWFhOTZjNjAzMzhmZQ==".data.tail ∧
    "MDliMjRmZmViZThhODlkYjg5NTQ3NDU3ZWU5OTQ4M2I5MDU1ZTM1MmRjYTEzYTA1YjE4ZWFhOTZjNjAzMzhmZQ==".data.head? =
      some 'M' ∧
    "NDliMjRmZmViZThhODlkYjg5NTQ3NDU3ZWU5OTQ4M2I5MDU1ZTM1MmRjYTEzYTA1YjE4ZWFhOTZjNjAzMzhmZQ==".data.head? =
      some 'N' ∧
    isStdB64Char 'N' = true ∧ 'M' ≠ 'N' ∧
    (decryptData "secretKey" "secretIV"
      (some "NDliMjRmZmViZThhODlkYjg5NTQ3NDU3ZWU5OTQ4M2I5MDU1ZTM1MmRjYTEzYTA1YjE4ZWFhOTZjNjAzMzhmZQ==")).isOk =
      true := by
  refine ⟨?_, by decide, by decide, by decide, by decide, by decide, ?_⟩
  · rfl
  · rfl

end EncDataNode
